import Mathlib

/-!
Verification development for the rakke repository (a minimal git-like
object store, pack reader and staging-area writer written in Rust).

The definitions below are a shallow embedding of the Rust sources:
  * src/add.rs        — staging ("index") writer, SHA-1, hex codec
  * src/pack.rs       — pack and idx file readers
  * src/objects.rs    — object envelope parser
  * src/repository.rs — commit counting over collected objects

Bytes are modelled as `Nat` values below 256, byte sequences as
`List Nat`, and machine-integer overflow is made explicit with `% 2^w`.
Fallible Rust functions returning `Result` are modelled with `Except`.
-/

set_option maxRecDepth 8192

deriving instance DecidableEq for Except

namespace Rakke

/-! ## Byte and word helpers -/

/-- 2^32, the modulus of `u32` arithmetic. -/
def U32 : Nat := 4294967296

/-- 2^64, the modulus of `u64`/`usize` arithmetic. -/
def U64 : Nat := 18446744073709551616

/-- Big-endian interpretation of four bytes (`byteorder::BigEndian` read_u32). -/
def be32 (a b c d : Nat) : Nat := ((a * 256 + b) * 256 + c) * 256 + d

/-- Big-endian byte serialization of a `u32` (`write_u32::<BigEndian>`). -/
def toBE32 (n : Nat) : List Nat :=
  [n / 16777216 % 256, n / 65536 % 256, n / 256 % 256, n % 256]

/-- Big-endian byte serialization of a `u16` (`write_u16::<BigEndian>`). -/
def toBE16 (n : Nat) : List Nat := [n / 256 % 256, n % 256]

/-- Big-endian byte serialization of a `u64` (`u64::to_be_bytes`). -/
def toBE64 (n : Nat) : List Nat :=
  [n / 72057594037927936 % 256, n / 281474976710656 % 256,
   n / 1099511627776 % 256, n / 4294967296 % 256,
   n / 16777216 % 256, n / 65536 % 256, n / 256 % 256, n % 256]

/-- `u32::rotate_left` for values below 2^32. -/
def rotl32 (x k : Nat) : Nat := (x % U32 * 2 ^ k + x % U32 / 2 ^ (32 - k)) % U32

/-- `u32` bitwise complement (`!b` in Rust). -/
def not32 (b : Nat) : Nat := 4294967295 ^^^ b % U32

/-- UTF-8 encoding of a single Unicode scalar value. -/
def utf8Bytes (c : Nat) : List Nat :=
  if c < 128 then [c]
  else if c < 2048 then [192 + c / 64, 128 + c % 64]
  else if c < 65536 then [224 + c / 4096, 128 + c / 64 % 64, 128 + c % 64]
  else [240 + c / 262144, 128 + c / 4096 % 64, 128 + c / 64 % 64, 128 + c % 64]

/-- The UTF-8 bytes of a Lean string; models Rust `str::as_bytes`. -/
def strBytes (s : String) : List Nat := s.data.flatMap (fun c => utf8Bytes c.toNat)

/-! ## SHA-1 as implemented by `sha1_hash` in src/add.rs -/

/-- The zero-padding loop of `sha1_hash` (src/add.rs lines 313-316),
with structural fuel: push `0` until the buffered length is congruent
to 56 modulo 64.  At most 63 pushes are ever needed, so fuel 64 makes
the fuel-exhaustion branch unreachable. -/
def padZerosAux : Nat → List Nat → List Nat
  | 0, l => l
  | fuel + 1, l => if l.length % 64 = 56 then l else padZerosAux fuel (l ++ [0])

/-- The zero-padding loop of `sha1_hash`. -/
def padZeros (l : List Nat) : List Nat := padZerosAux 64 l

/-- Full SHA-1 pre-processing of `sha1_hash`: append `0x80`, zero-pad,
then append the original bit length as a big-endian `u64`. -/
def sha1Pad (data : List Nat) : List Nat :=
  padZeros (data ++ [128]) ++ toBE64 (data.length * 8 % U64)

/-- `chunks_exact(64)`: split into 64-byte chunks, dropping any
remainder.  Each step removes 64 elements, so fuel equal to the length
never runs out. -/
def chunks64Aux : Nat → List Nat → List (List Nat)
  | 0, _ => []
  | fuel + 1, l => if l.length < 64 then [] else l.take 64 :: chunks64Aux fuel (l.drop 64)

/-- `chunks_exact(64)` on a byte list. -/
def chunks64 (l : List Nat) : List (List Nat) := chunks64Aux l.length l

/-- The sixteen initial 32-bit schedule words of a chunk. -/
def w16 (chunk : List Nat) : List Nat :=
  (List.range 16).map (fun i =>
    be32 (chunk.getD (4 * i) 0) (chunk.getD (4 * i + 1) 0)
         (chunk.getD (4 * i + 2) 0) (chunk.getD (4 * i + 3) 0))

/-- The schedule-extension loop of `sha1_hash` (src/add.rs lines 337-339):
appends `rotl1 (w[i-3] xor w[i-8] xor w[i-14] xor w[i-16])` where `i` is
the current length of the schedule. -/
def extendW : Nat → List Nat → List Nat
  | 0, w => w
  | k + 1, w =>
    let n := w.length
    extendW k (w ++ [rotl32 (w.getD (n - 3) 0 ^^^ w.getD (n - 8) 0 ^^^
                             w.getD (n - 14) 0 ^^^ w.getD (n - 16) 0) 1])

/-- The full 80-word message schedule built by `sha1_hash`. -/
def buildW (chunk : List Nat) : List Nat := extendW 64 (w16 chunk)

/-- Working state of the SHA-1 compression loop. -/
abbrev Sha1State := Nat × Nat × Nat × Nat × Nat

/-- The per-round `(f, k)` selection of `sha1_hash` (the `match i` on
src/add.rs lines 346-352). -/
def sha1_fk (i b c d : Nat) : Nat × Nat :=
  if i ≤ 19 then ((b &&& c) ||| (not32 b &&& d), 1518500249)
  else if i ≤ 39 then (b ^^^ c ^^^ d, 1859775393)
  else if i ≤ 59 then ((b &&& c) ||| (b &&& d) ||| (c &&& d), 2400959708)
  else (b ^^^ c ^^^ d, 3395469782)

/-- One iteration of the main loop of `sha1_hash`. -/
def roundStep (w : List Nat) (i : Nat) (s : Sha1State) : Sha1State :=
  match s with
  | (a, b, c, d, e) =>
    let fk := sha1_fk i b c d
    let temp := (rotl32 a 5 + fk.1 + e + fk.2 + w.getD i 0) % U32
    (temp, a, rotl32 b 30, c, d)

/-- Processing of one 64-byte chunk by `sha1_hash`: the eighty rounds
over the schedule of the chunk, then the working variables are added
into the hash words modulo 2^32. -/
def processChunk (h : Sha1State) (chunk : List Nat) : Sha1State :=
  match h, (List.range 80).foldl (fun s i => roundStep (buildW chunk) i s) h with
  | (h0, h1, h2, h3, h4), (a, b, c, d, e) =>
    ((h0 + a) % U32, (h1 + b) % U32, (h2 + c) % U32, (h3 + d) % U32, (h4 + e) % U32)

/-- The five final hash words computed by `sha1_hash`. -/
def sha1Words (data : List Nat) : Sha1State :=
  (chunks64 (sha1Pad data)).foldl processChunk
    (1732584193, 4023233417, 2562383102, 271733878, 3285377520)

/-- Lowercase hexadecimal digit character. -/
def hexDigitChar (n : Nat) : Char := Char.ofNat (if n < 10 then 48 + n else 87 + n)

/-- The eight lowercase hex characters of a `u32` (Rust format `08x`). -/
def toHex8Chars (n : Nat) : List Char :=
  [hexDigitChar (n / 268435456 % 16), hexDigitChar (n / 16777216 % 16),
   hexDigitChar (n / 1048576 % 16), hexDigitChar (n / 65536 % 16),
   hexDigitChar (n / 4096 % 16), hexDigitChar (n / 256 % 16),
   hexDigitChar (n / 16 % 16), hexDigitChar (n % 16)]

/-- `sha1_hash` from src/add.rs: SHA-1 of a byte sequence as a
40-character lowercase hexadecimal string. -/
def sha1_hash (data : List Nat) : String :=
  match sha1Words data with
  | (h0, h1, h2, h3, h4) =>
    ⟨toHex8Chars h0 ++ toHex8Chars h1 ++ toHex8Chars h2 ++
     toHex8Chars h3 ++ toHex8Chars h4⟩

/-- The twenty raw digest bytes corresponding to `sha1_hash`
(the five hash words in big-endian byte order). -/
def sha1Bytes (data : List Nat) : List Nat :=
  match sha1Words data with
  | (h0, h1, h2, h3, h4) =>
    toBE32 h0 ++ toBE32 h1 ++ toBE32 h2 ++ toBE32 h3 ++ toBE32 h4

/-! ## `hex_to_bytes` from src/add.rs -/

/-- `char::to_digit(16)` on an ASCII byte: accepts `0-9`, `a-f` and `A-F`.
Bytes that are not ASCII hex digits (including all bytes ≥ 0x80) yield
`none`, exactly as the corresponding characters are rejected by the Rust
digit parser. -/
def hexVal (b : Nat) : Option Nat :=
  if 48 ≤ b ∧ b ≤ 57 then some (b - 48)
  else if 97 ≤ b ∧ b ≤ 102 then some (b - 87)
  else if 65 ≤ b ∧ b ≤ 70 then some (b - 55)
  else none

/-- The digit-accumulation loop of `u8::from_str_radix` at radix 16:
`checked_mul` then `checked_add` (or `checked_sub` after a minus sign)
on a `u8` accumulator. -/
def radixAccum (neg : Bool) : List Nat → Nat → Option Nat
  | [], acc => some acc
  | d :: ds, acc =>
    match hexVal d with
    | none => none
    | some v =>
      let m := acc * 16
      if 255 < m then none
      else if neg then (if m < v then none else radixAccum neg ds (m - v))
      else (if 255 < m + v then none else radixAccum neg ds (m + v))

/-- `u8::from_str_radix(s, 16)` on the bytes of `s`: an optional sign
followed by at least one radix-16 digit.  Multi-byte UTF-8 characters
and invalid UTF-8 both fail here, as they do in the Rust code (either
in `str::from_utf8` or in the digit parser); the success values agree
byte for byte. -/
def fromStrRadix16 (s : List Nat) : Option Nat :=
  match s with
  | [] => none
  | c :: rest =>
    if c = 43 then (if rest.isEmpty then none else radixAccum false rest 0)
    else if c = 45 then (if rest.isEmpty then none else radixAccum true rest 0)
    else radixAccum false s 0

/-- `hex_to_bytes` from src/add.rs: split the input bytes into chunks of
two (the last chunk may hold a single byte) and parse each chunk with
`u8::from_str_radix(_, 16)`, collecting the parsed bytes; the first
failing chunk aborts with an error. -/
def hex_to_bytes : List Nat → Except String (List Nat)
  | [] => .ok []
  | [a] =>
    match fromStrRadix16 [a] with
    | none => .error "Invalid hex digit"
    | some v => .ok [v]
  | a :: b :: rest =>
    match fromStrRadix16 [a, b] with
    | none => .error "Invalid hex digit"
    | some v =>
      match hex_to_bytes rest with
      | .error e => .error e
      | .ok vs => .ok (v :: vs)

/-! ## Staging-area ("index") writer from src/add.rs -/

/-- An entry of the staging map (`struct IndexEntry` in src/add.rs). -/
structure IndexEntry where
  hash : String
  mode : Nat
  size : Nat
  mtime : Nat
deriving Repr, DecidableEq

/-- Byte-lexicographic comparison, the order underlying Rust `String`
comparison on UTF-8 bytes. -/
def bytesLe : List Nat → List Nat → Bool
  | [], _ => true
  | _ :: _, [] => false
  | a :: as, b :: bs => if a < b then true else if b < a then false else bytesLe as bs

/-- Path comparison used by `entries.sort_by_key` in `serialize_index`. -/
def pathLe (p q : String) : Bool := bytesLe (strBytes p) (strBytes q)

/-- Insertion step of the path sort. -/
def insertSorted (x : String × IndexEntry) :
    List (String × IndexEntry) → List (String × IndexEntry)
  | [] => [x]
  | y :: ys => if pathLe x.1 y.1 then x :: y :: ys else y :: insertSorted x ys

/-- Sorting of the staging entries by path (`sort_by_key` on unique keys,
so the result does not depend on the input order). -/
def sortByPath (l : List (String × IndexEntry)) : List (String × IndexEntry) :=
  l.foldr insertSorted []

/-- The padding loop of `write_index_entry` (src/add.rs lines 279-281),
with structural fuel: push `0` until the cumulative buffer length is a
multiple of 8.  At most 7 pushes are ever needed, so fuel 8 makes the
fuel-exhaustion branch unreachable. -/
def pad8Aux : Nat → List Nat → List Nat
  | 0, l => l
  | fuel + 1, l => if l.length % 8 = 0 then l else pad8Aux fuel (l ++ [0])

/-- The padding loop of `write_index_entry`. -/
def pad8 (l : List Nat) : List Nat := pad8Aux 8 l

/-- `write_index_entry` from src/add.rs: append one serialized staging
entry (ten big-endian `u32` fields, the 20 raw hash bytes, a 2-byte
flags field holding `min(path_len, 0xfff)`, the path bytes, a NUL, and
zero padding to the next 8-byte boundary of the whole buffer). -/
def write_index_entry (content : List Nat) (path : String) (e : IndexEntry) :
    Except String (List Nat) :=
  let c := content ++ toBE32 (e.mtime % U32) ++ toBE32 0 ++ toBE32 (e.mtime % U32) ++
           toBE32 0 ++ toBE32 0 ++ toBE32 0 ++ toBE32 (e.mode % U32) ++ toBE32 0 ++
           toBE32 0 ++ toBE32 (e.size % U32)
  match hex_to_bytes (strBytes e.hash) with
  | .error err => .error err
  | .ok hb =>
    if hb.length ≠ 20 then .error "Invalid SHA-1 hash length"
    else
      let pl := min (strBytes path).length 4095
      .ok (pad8 (c ++ hb ++ toBE16 pl ++ strBytes path ++ [0]))

/-- The entry-writing fold of `serialize_index`. -/
def writeEntries (c : List Nat) : List (String × IndexEntry) → Except String (List Nat)
  | [] => .ok c
  | (p, e) :: rest =>
    match write_index_entry c p e with
    | .error err => .error err
    | .ok c2 => writeEntries c2 rest

/-- `serialize_index` from src/add.rs: the `DIRC` header with version 2
and the entry count, the path-sorted entries, and a trailing 20-byte
SHA-1 checksum of everything that precedes it. -/
def serialize_index (index : List (String × IndexEntry)) : Except String (List Nat) :=
  let header := [68, 73, 82, 67] ++ toBE32 2 ++ toBE32 (index.length % U32)
  match writeEntries header (sortByPath index) with
  | .error err => .error err
  | .ok content =>
    match hex_to_bytes (strBytes (sha1_hash content)) with
    | .error err => .error err
    | .ok checksum => .ok (content ++ checksum)

/-- `parse_index` from src/add.rs: a stub that ignores the on-disk bytes
and always returns the empty staging map. -/
def parse_index (_content : List Nat) : Except String (List (String × IndexEntry)) :=
  .ok []

/-- `load_index` from src/add.rs: an absent staging file yields the empty
map, an existing one is read and passed to `parse_index`. -/
def load_index (disk : Option (List Nat)) : Except String (List (String × IndexEntry)) :=
  match disk with
  | none => .ok []
  | some content => parse_index content

/-- The working-tree data of one path argument of `add` (content bytes,
any-execute permission bit, whole-second mtime); abstracts the
filesystem reads done by `add_file_to_index`. -/
structure FileInfo where
  path : String
  content : List Nat
  exec : Bool
  mtime : Nat

/-- The decimal digits of a natural number, most significant first,
with structural fuel (`n` itself strictly bounds the digit count, so
the fuel-exhaustion branch only sees `n < 10`); models the Rust
`Display` formatting of unsigned integers. -/
def decDigitsAux : Nat → Nat → List Nat
  | 0, n => [n]
  | fuel + 1, n => if n < 10 then [n] else decDigitsAux fuel (n / 10) ++ [n % 10]

/-- The decimal digits of a natural number, most significant first. -/
def decDigits (n : Nat) : List Nat := decDigitsAux n n

/-- The decimal character string of a natural number. -/
def decChars (n : Nat) : List Char := (decDigits n).map (fun d => Char.ofNat (48 + d))

/-- The blob hash computed by `create_blob_object`: SHA-1 of the envelope
`"blob <decimal-size>\0<content>"`. -/
def create_blob_hash (content : List Nat) : String :=
  sha1_hash (strBytes "blob " ++ (decChars content.length).map Char.toNat ++ [0] ++ content)

/-- `HashMap::insert`: replace any existing binding of the path. -/
def insertEntry (m : List (String × IndexEntry)) (p : String) (e : IndexEntry) :
    List (String × IndexEntry) :=
  m.filter (fun kv => kv.1 ≠ p) ++ [(p, e)]

/-- `add_path` from src/add.rs for a regular-file argument: load the
staging map from disk, insert the file entry built by
`add_file_to_index`, and serialize the result. -/
def add_path (disk : Option (List Nat)) (f : FileInfo) : Except String (List Nat) :=
  match load_index disk with
  | .error e => .error e
  | .ok index =>
    let entry : IndexEntry :=
      { hash := create_blob_hash f.content,
        mode := if f.exec then 33261 else 33188,
        size := f.content.length % U32,
        mtime := f.mtime % U32 }
    serialize_index (insertEntry index f.path entry)

/-- The argument loop of `execute` in src/add.rs: each path argument runs
a full `add_path` (load, mutate, rewrite) against the staging file left
by the previous one; the first error aborts the invocation. -/
def executeAdd (disk : Option (List Nat)) : List FileInfo → Except String (Option (List Nat))
  | [] => .ok disk
  | f :: rest =>
    match add_path disk f with
    | .error e => .error e
    | .ok newDisk => executeAdd (some newDisk) rest

/-- Whether `pat` occurs as a contiguous byte run inside `hay`. -/
def containsSeq (hay pat : List Nat) : Bool :=
  (List.range (hay.length + 1)).any (fun i => (hay.drop i).take pat.length == pat)

/-! ## SHA-1 as specified by FIPS 180-4

A second, spec-side definition of SHA-1, following the words of the
specification (append `0x80`, zero bytes until the length is ≡ 56 mod
64, the message length in bits as a 64-bit big-endian integer; the
`Ch`/`Parity`/`Maj` round functions and round constants of FIPS 180-4;
output the five big-endian 32-bit words hex-encoded).  It is compared
with the source-side `sha1_hash` by the C8 refinement theorem. -/

/-- FIPS padding: the number of zero bytes that brings the length of
`msg ++ [0x80]` to 56 modulo 64. -/
def fipsZeroCount (n : Nat) : Nat := (120 - (n + 1) % 64) % 64

/-- The FIPS-padded message: `0x80`, the zero block, and the bit length
as a 64-bit big-endian integer. -/
def fipsPad (msg : List Nat) : List Nat :=
  msg ++ [128] ++ List.replicate (fipsZeroCount msg.length) 0 ++
    toBE64 (msg.length * 8 % U64)

/-- FIPS `Ch(x,y,z) = (x AND y) XOR (NOT x AND z)`. -/
def fipsCh (x y z : Nat) : Nat := (x &&& y) ^^^ (not32 x &&& z)

/-- FIPS `Parity(x,y,z) = x XOR y XOR z`. -/
def fipsParity (x y z : Nat) : Nat := x ^^^ y ^^^ z

/-- FIPS `Maj(x,y,z) = (x AND y) XOR (x AND z) XOR (y AND z)`. -/
def fipsMaj (x y z : Nat) : Nat := (x &&& y) ^^^ (x &&& z) ^^^ (y &&& z)

/-- The FIPS round function `f_t`. -/
def fipsF (t x y z : Nat) : Nat :=
  if t < 20 then fipsCh x y z
  else if t < 40 then fipsParity x y z
  else if t < 60 then fipsMaj x y z
  else fipsParity x y z

/-- The FIPS round constant `K_t`. -/
def fipsK (t : Nat) : Nat :=
  if t < 20 then 1518500249
  else if t < 40 then 1859775393
  else if t < 60 then 2400959708
  else 3395469782

/-- The FIPS message schedule `W_t` of one 64-byte block: the block
words for `t < 16`, and
`ROTL1 (W_{t-3} XOR W_{t-8} XOR W_{t-14} XOR W_{t-16})` beyond. -/
def specW (chunk : List Nat) (t : Nat) : Nat :=
  if t < 16 then
    be32 (chunk.getD (4 * t) 0) (chunk.getD (4 * t + 1) 0)
         (chunk.getD (4 * t + 2) 0) (chunk.getD (4 * t + 3) 0)
  else
    rotl32 (specW chunk (t - 3) ^^^ specW chunk (t - 8) ^^^
            specW chunk (t - 14) ^^^ specW chunk (t - 16)) 1
termination_by t

/-- One FIPS round: `T = ROTL5 a + f_t(b,c,d) + e + K_t + W_t`,
then `(a,b,c,d,e) := (T, a, ROTL30 b, c, d)`, modulo 2^32. -/
def fipsStep (chunk : List Nat) (t : Nat) (s : Sha1State) : Sha1State :=
  match s with
  | (a, b, c, d, e) =>
    let temp := (rotl32 a 5 + fipsF t b c d + e + fipsK t + specW chunk t) % U32
    (temp, a, rotl32 b 30, c, d)

/-- The first `n` FIPS rounds applied in order `t = 0, 1, ...`. -/
def fipsRounds (chunk : List Nat) : Nat → Sha1State → Sha1State
  | 0, s => s
  | t + 1, s => fipsStep chunk t (fipsRounds chunk t s)

/-- FIPS processing of one message block: eighty rounds, then the
working variables are added into the hash value modulo 2^32. -/
def fipsBlock (h : Sha1State) (chunk : List Nat) : Sha1State :=
  match h, fipsRounds chunk 80 h with
  | (h0, h1, h2, h3, h4), (a, b, c, d, e) =>
    ((h0 + a) % U32, (h1 + b) % U32, (h2 + c) % U32, (h3 + d) % U32, (h4 + e) % U32)

/-- The FIPS 180-4 digest of a byte sequence: the five final hash words
in big-endian byte order, twenty bytes in all. -/
def fipsDigest (msg : List Nat) : List Nat :=
  match (chunks64 (fipsPad msg)).foldl fipsBlock
      (1732584193, 4023233417, 2562383102, 271733878, 3285377520) with
  | (h0, h1, h2, h3, h4) =>
    toBE32 h0 ++ toBE32 h1 ++ toBE32 h2 ++ toBE32 h3 ++ toBE32 h4

/-- Lowercase hexadecimal encoding of a byte sequence, two digits per
byte. -/
def specHexEncode (bytes : List Nat) : String :=
  ⟨bytes.flatMap (fun x => [hexDigitChar (x / 16 % 16), hexDigitChar (x % 16)])⟩

/-! ## Object model from src/objects.rs -/

/-- `enum ObjectType` from src/objects.rs. -/
inductive ObjectType
  | commit
  | tree
  | blob
  | tag
  | unknown
deriving Repr, DecidableEq

/-- `struct GitObject` from src/objects.rs. -/
structure GitObject where
  hash : String
  objectType : ObjectType
  size : Nat
  data : List Nat
deriving Repr, DecidableEq

/-- `str::from_utf8` restricted to the ASCII inputs that occur here.
Every envelope header built by the pack reader is ASCII by construction
(`"<type> <decimal-size>"`), so treating any byte equal to or above 0x80
as a decoding failure is faithful on every input this embedding feeds
to it. -/
def asciiDecode (bytes : List Nat) : Option (List Char) :=
  if bytes.all (fun b => b < 128) then some (bytes.map Char.ofNat) else none

/-- Rust `str::split(' ')`: split into (possibly empty) space-separated
segments; the result always has at least one segment. -/
def splitSpace : List Char → List (List Char)
  | [] => [[]]
  | c :: rest =>
    if c = Char.ofNat 32 then [] :: splitSpace rest
    else
      match splitSpace rest with
      | [] => [[c]]
      | g :: gs => (c :: g) :: gs

/-- Decimal digit value of an ASCII byte. -/
def decVal (b : Nat) : Option Nat :=
  if 48 ≤ b ∧ b ≤ 57 then some (b - 48) else none

/-- Digit accumulation of `usize::from_str` with checked 64-bit
arithmetic. -/
def decAccum (neg : Bool) : List Nat → Nat → Option Nat
  | [], acc => some acc
  | d :: ds, acc =>
    match decVal d with
    | none => none
    | some v =>
      let m := acc * 10
      if U64 ≤ m then none
      else if neg then (if m < v then none else decAccum neg ds (m - v))
      else (if U64 ≤ m + v then none else decAccum neg ds (m + v))

/-- `str::parse::<usize>` on ASCII bytes: optional sign, then at least
one decimal digit, with 64-bit overflow checking. -/
def parseUsize (s : List Nat) : Option Nat :=
  match s with
  | [] => none
  | c :: rest =>
    if c = 43 then (if rest.isEmpty then none else decAccum false rest 0)
    else if c = 45 then (if rest.isEmpty then none else decAccum true rest 0)
    else decAccum false s 0

/-- `iter().position(|&b| b == 0)`: index of the first zero byte. -/
def position0 : List Nat → Option Nat
  | [] => none
  | b :: rest => if b = 0 then some 0 else (position0 rest).map (fun i => i + 1)

/-- `GitObject::parse_object_data` (also `from_decompressed_data`) from
src/objects.rs: split at the first NUL, decode the header, split it on
spaces into exactly two parts, map the type name (unknown names map to
`ObjectType.unknown`), and parse the decimal size. -/
def parse_object_data (hash : String) (data : List Nat) : Except String GitObject :=
  match position0 data with
  | none => .error "Invalid object format"
  | some nullPos =>
    match asciiDecode (data.take nullPos) with
    | none => .error "invalid utf-8 in header"
    | some headerChars =>
      let parts := splitSpace headerChars
      if parts.length ≠ 2 then .error "Invalid object header format"
      else
        let tyStr := parts.getD 0 []
        let objectType :=
          if tyStr = "commit".data then ObjectType.commit
          else if tyStr = "tree".data then ObjectType.tree
          else if tyStr = "blob".data then ObjectType.blob
          else if tyStr = "tag".data then ObjectType.tag
          else ObjectType.unknown
        match parseUsize ((parts.getD 1 []).map Char.toNat) with
        | none => .error "invalid size"
        | some size => .ok ⟨hash, objectType, size, data.drop (nullPos + 1)⟩

/-! ## Commit counting from src/repository.rs -/

/-- The deduplication loop of `get_all_objects`: keep the first object
seen for each hash. -/
def dedupByHash : List GitObject → List String → List GitObject
  | [], _ => []
  | o :: os, seen =>
    if seen.contains o.hash then dedupByHash os seen
    else o :: dedupByHash os (o.hash :: seen)

/-- `count_all_commits` from src/repository.rs, applied to the collected
object list (loose plus packed): deduplicate by hash, then count the
objects of type commit. -/
def count_all_commits (objs : List GitObject) : Nat :=
  ((dedupByHash objs []).filter (fun o => o.objectType == ObjectType.commit)).length

/-! ## Idx file reader from src/pack.rs -/

/-- `format "02x"` of one byte. -/
def byteHexChars (b : Nat) : List Char :=
  [hexDigitChar (b / 16 % 16), hexDigitChar (b % 16)]

/-- `HashMap::insert (hash, 0)`: a repeated hash does not add a second
key.  The model fixes the iteration order of the map to insertion
order; the Rust `HashMap` order is arbitrary, and no theorem below
depends on the order of a map with more than one entry. -/
def insertHash (acc : List String) (h : String) : List String :=
  if acc.contains h then acc else acc ++ [h]

/-- The hash-reading loop of `parse_idx_file`: read `n` twenty-byte
hashes; a failing `read_exact` consumes the remaining bytes and skips
to the next iteration. -/
def readHashes (data : List Nat) : Nat → Nat → List String → List String × Nat
  | 0, pos, acc => (acc, pos)
  | n + 1, pos, acc =>
    if pos + 20 ≤ data.length then
      readHashes data n (pos + 20)
        (insertHash acc ⟨((data.drop pos).take 20).flatMap byteHexChars⟩)
    else readHashes data n data.length acc

/-- The offset-reading loop of `parse_idx_file`: one big-endian `u32`
per collected hash, in map-iteration order; a failing read leaves the
offset at its initial value 0. -/
def readOffsets (data : List Nat) : List String → Nat → List (String × Nat) →
    List (String × Nat) × Nat
  | [], pos, acc => (acc, pos)
  | h :: hs, pos, acc =>
    if pos + 4 ≤ data.length then
      readOffsets data hs (pos + 4)
        (acc ++ [(h, be32 (data.getD pos 0) (data.getD (pos + 1) 0)
                          (data.getD (pos + 2) 0) (data.getD (pos + 3) 0))])
    else readOffsets data hs data.length (acc ++ [(h, 0)])

/-- The common body of `parse_idx_file` after version detection: read
the object count at `fanout_offset + 4*255`, the hashes from `sha_pos`,
skip the CRC table for version 2, then read the offsets. -/
def parseIdxBody (data : List Nat) (version2 : Bool) : Except String (List (String × Nat)) :=
  let fanoutOffset := if version2 then 8 else 0
  let numPos := fanoutOffset + 4 * 255
  if data.length < numPos + 4 then .error "Error reading object count"
  else
    let num := be32 (data.getD numPos 0) (data.getD (numPos + 1) 0)
                    (data.getD (numPos + 2) 0) (data.getD (numPos + 3) 0)
    let shaPos := if version2 then fanoutOffset + 4 * 256 else 4 * 256
    let hp := readHashes data num shaPos []
    let crcSkip := if version2 then 4 * num else 0
    .ok (readOffsets data hp.1 (hp.2 + crcSkip) []).1

/-- `parse_idx_file` from src/pack.rs: distinguish the version-2 magic,
check the version word, then run the common body.  Returns the
hash-to-offset association. -/
def parse_idx_file (data : List Nat) : Except String (List (String × Nat)) :=
  if data.length < 4 then .error "Error reading idx file signature"
  else if data.take 4 = [255, 116, 79, 99] then
    if data.length < 8 then .error "Error reading idx file version"
    else if (data.drop 4).take 4 ≠ [0, 0, 0, 2] then .error "Unsupported idx file version"
    else parseIdxBody data true
  else parseIdxBody data false

/-! ## Pack file reader from src/pack.rs

The zlib decompressor (`flate2::read::ZlibDecoder::read_to_end` plus
`total_in`) is an external crate; the reader is parameterized over its
observable behaviour on the byte slice handed to it. -/

/-- Outcome of running the zlib decoder to the end of its output on a
byte slice: success, an unexpected-EOF error (with whatever payload and
input consumption it reached), or any other error. -/
inductive DzOut
  | ok (payload : List Nat) (totalIn : Nat)
  | errEof (payload : List Nat) (totalIn : Nat)
  | errOther
deriving Repr

/-- A zlib decompressor: the behaviour of `read_to_end`/`total_in` on a
given input slice. -/
abbrev Decomp := List Nat → DzOut

/-- `enum PackObjectType` from src/pack.rs. -/
inductive PObjType
  | commit
  | tree
  | blob
  | tag
  | ofsDelta
  | refDelta
deriving Repr, DecidableEq

/-- The 3-bit type decoding of `read_object_header`. -/
def pobjTypeOf : Nat → Option PObjType
  | 1 => some .commit
  | 2 => some .tree
  | 3 => some .blob
  | 4 => some .tag
  | 6 => some .ofsDelta
  | 7 => some .refDelta
  | _ => none

/-- The type strings used when rebuilding an envelope for a base object. -/
def pobjTypeStr : PObjType → String
  | .commit => "commit"
  | .tree => "tree"
  | .blob => "blob"
  | .tag => "tag"
  | .ofsDelta => ""
  | .refDelta => ""

/-- The size-continuation loop of `read_object_header` (src/pack.rs
lines 422-448), with `fuel = 10 - iterations`: read further size bytes
while the previous byte has its top bit set, or the iteration cap is
reached; `shift` grows by 7 per byte and is rejected above 64. -/
def sizeLoop (data : List Nat) : Nat → Nat → Nat → Nat → Nat → Except String Nat × Nat
  | 0, _, _, _, pos => (.error "Too many iterations while reading object size", pos)
  | fuel + 1, current, size, shift, pos =>
    if current &&& 128 ≠ 0 then
      if data.length ≤ pos then
        (.error "Reached end of file while reading object size", pos)
      else
        let b := data.getD pos 0
        let size2 := size ||| ((b &&& 127) * 2 ^ shift % U64)
        if 64 < shift + 7 then (.error "Size value too large", pos + 1)
        else sizeLoop data fuel b size2 (shift + 7) (pos + 1)
    else (.ok size, pos)

/-- `read_object_header` from src/pack.rs: one type-and-size byte, then
the size-continuation loop, then the 100 MiB size cap.  Returns the
result together with the cursor position reached. -/
def read_object_header (data : List Nat) (pos : Nat) : Except String (PObjType × Nat) × Nat :=
  if data.length ≤ pos then
    (.error "Reached end of file while reading object header", pos)
  else
    let byte := data.getD pos 0
    match pobjTypeOf (byte >>> 4 &&& 7) with
    | none => (.error "Unknown object type in pack file", pos + 1)
    | some ty =>
      match sizeLoop data 10 byte (byte &&& 15) 4 (pos + 1) with
      | (.error e, p) => (.error e, p)
      | (.ok size, p) =>
        if 104857600 < size then (.error "Suspiciously large object size", p)
        else (.ok (ty, size), p)

/-- The continuation loop of `read_offset_delta`, with
`fuel = 10 - iterations`. -/
def ofsLoop (data : List Nat) : Nat → Nat → Nat → Nat → Except String Nat × Nat
  | 0, _, off, pos => (.ok off, pos)
  | fuel + 1, byte, off, pos =>
    if byte &&& 128 ≠ 0 then
      if data.length ≤ pos then (.error "Error reading offset byte", pos)
      else
        let b := data.getD pos 0
        let off2 := ((off + 1) * 128 + (b &&& 127)) % U64
        if fuel = 0 then
          (.error "Too many iterations while reading delta offset", pos + 1)
        else ofsLoop data fuel b off2 (pos + 1)
    else (.ok off, pos)

/-- `read_offset_delta` from src/pack.rs: the variable-length negative
offset of an OFS_DELTA record. -/
def read_offset_delta (data : List Nat) (pos : Nat) : Except String Nat × Nat :=
  if data.length ≤ pos then (.error "Error reading first offset byte", pos)
  else ofsLoop data 10 (data.getD pos 0) (data.getD pos 0 &&& 127) (pos + 1)

/-- The trial-decompression loop of `skip_zlib_data`: probe chunks of
doubling size starting at 1 KiB; on decoder success advance by its
consumed count (or one byte when that is zero); past the 1 MiB cap or
the end of the data, advance one byte.  The fuel only bounds the at
most eleven doublings from 1024 and is never exhausted from that start. -/
def skipProbe (dz : Decomp) (data : List Nat) (startPos : Nat) :
    Nat → Nat → Except String Unit × Nat
  | 0, _ => (.ok (), startPos + 1)
  | fuel + 1, testSize =>
    if startPos + testSize ≤ data.length then
      match dz ((data.drop startPos).take testSize) with
      | .ok _ totalIn =>
        if 0 < totalIn then (.ok (), startPos + totalIn) else (.ok (), startPos + 1)
      | _ =>
        let t2 := testSize * 2
        if 1048576 < t2 then (.ok (), startPos + 1)
        else skipProbe dz data startPos fuel t2
    else (.ok (), startPos + 1)

/-- `skip_zlib_data` from src/pack.rs: guard against EOF, read the two
zlib header bytes, validate them, then probe for the end of the stream.
On an invalid header the two read bytes stay consumed. -/
def skip_zlib_data (dz : Decomp) (data : List Nat) (pos : Nat) : Except String Unit × Nat :=
  if data.length ≤ pos then
    (.error "Reached end of file while skipping compressed data", pos)
  else if data.length < pos + 2 then (.error "Error reading zlib header", data.length)
  else
    let b0 := data.getD pos 0
    let b1 := data.getD (pos + 1) 0
    if b0 &&& 15 ≠ 8 ∨ 112 < b0 &&& 240 ∨ (b0 * 256 + b1) % 31 ≠ 0 then
      (.error "Invalid zlib header", pos + 2)
    else skipProbe dz data pos 12 1024

/-- `read_zlib_data` from src/pack.rs: run the decoder on all remaining
bytes; treat an unexpected EOF that still produced payload as success;
on other failures consume one extra byte and report the error. -/
def read_zlib_data (dz : Decomp) (data : List Nat) (pos : Nat) (_expectedSize : Nat) :
    Except String (List Nat) × Nat :=
  if data.length ≤ pos then
    (.error "Reached end of file while reading compressed data", pos)
  else
    match dz (data.drop pos) with
    | .ok payload totalIn =>
      if 0 < totalIn then (.ok payload, pos + totalIn)
      else (.error "Could not determine number of compressed bytes read", pos)
    | .errEof payload totalIn =>
      if payload ≠ [] ∧ 0 < totalIn then (.ok payload, pos + totalIn)
      else (.error "decompression error", pos + 1)
    | .errOther => (.error "decompression error", pos + 1)

/-- What one iteration of the record loop of `parse_pack_file` did. -/
inductive RecordOutcome
  | emitted (obj : GitObject)
  | skipped
  | failed
deriving Repr, DecidableEq

/-- The reverse offset-to-hash lookup built by `parse_pack_file`.  The
model resolves duplicate offsets to the first entry of the association
list; the Rust `HashMap` iteration makes that choice arbitrarily, and
no theorem below depends on it. -/
def offsetHash (offsets : List (String × Nat)) (off : Nat) : Option String :=
  (offsets.find? (fun p => p.2 == off)).map (fun p => p.1)

/-- The hash label of the record starting at `pos`: the indexed hash
when the offset is present in the index map, else the placeholder
`unknown_<offset>`. -/
def recordHash (offsets : List (String × Nat)) (pos : Nat) : String :=
  match offsetHash offsets pos with
  | some h => h
  | none => "unknown_" ++ ⟨decChars pos⟩

/-- One iteration of the record loop of `parse_pack_file` (src/pack.rs
lines 275-375): resolve the hash for the current offset, read the
header, then read a base object, skip a delta, or recover from the
failure with a one-byte cursor advance from the failure position. -/
def recordStep (dz : Decomp) (data : List Nat) (offsets : List (String × Nat)) (pos : Nat) :
    RecordOutcome × Nat :=
  let hash := recordHash offsets pos
  match read_object_header data pos with
  | (.error _, p) => (.failed, p + 1)
  | (.ok (ty, size), p) =>
    match ty with
    | .ofsDelta =>
      match read_offset_delta data p with
      | (.error _, p2) => (.failed, p2 + 1)
      | (.ok _, p2) =>
        match skip_zlib_data dz data p2 with
        | (.ok _, p3) => (.skipped, p3)
        | (.error _, p3) => (.failed, p3 + 1)
    | .refDelta =>
      if data.length < p + 20 then (.failed, data.length + 1)
      else
        match skip_zlib_data dz data (p + 20) with
        | (.ok _, p3) => (.skipped, p3)
        | (.error _, p3) => (.failed, p3 + 1)
    | _ =>
      match read_zlib_data dz data p size with
      | (.error _, p2) => (.failed, p2 + 1)
      | (.ok payload, p2) =>
        let fullData := strBytes (pobjTypeStr ty) ++ [32] ++
          (decChars size).map Char.toNat ++ [0] ++ payload
        match parse_object_data hash fullData with
        | .ok obj => (.emitted obj, p2)
        | .error _ => (.failed, p2)

/-- The record loop of `parse_pack_file`, instrumented with the starting
offset and outcome of each iteration.  `fuel` starts at the declared
object count and the loop guard mirrors the source:
`processed < num && position < len && processed < num * 2`; the fuel
equals `num - processed` and never cuts the loop short. -/
def packLoop (dz : Decomp) (data : List Nat) (offsets : List (String × Nat)) (num : Nat) :
    Nat → Nat → Nat → List (Nat × RecordOutcome) → List (Nat × RecordOutcome)
  | 0, _, _, acc => acc
  | fuel + 1, processed, pos, acc =>
    if processed < num ∧ pos < data.length ∧ processed < num * 2 then
      let step := recordStep dz data offsets pos
      packLoop dz data offsets num fuel (processed + 1) step.2 (acc ++ [(pos, step.1)])
    else acc

/-- `parse_pack_file` from src/pack.rs up to and including the record
loop: validate the `PACK` magic, the version (2 or 3) and the declared
object count, then walk the records from offset 12.  Returns the
declared count and the iteration trace. -/
def packTrace (dz : Decomp) (data : List Nat) (offsets : List (String × Nat)) :
    Except String (Nat × List (Nat × RecordOutcome)) :=
  if data.length < 4 then .error "Failed to read pack file signature"
  else if data.take 4 ≠ [80, 65, 67, 75] then .error "Invalid pack file signature"
  else if data.length < 8 then .error "Failed to read pack file version"
  else
    let version := be32 (data.getD 4 0) (data.getD 5 0) (data.getD 6 0) (data.getD 7 0)
    if version ≠ 2 ∧ version ≠ 3 then .error "Unsupported pack file version"
    else if data.length < 12 then .error "Failed to read object count"
    else
      let num := be32 (data.getD 8 0) (data.getD 9 0) (data.getD 10 0) (data.getD 11 0)
      .ok (num, packLoop dz data offsets num num 0 12 [])

/-- The emitted objects of a trace, in order: the `objects` vector that
`parse_pack_file` returns. -/
def emittedObjects (trace : List (Nat × RecordOutcome)) : List GitObject :=
  trace.filterMap (fun t => match t.2 with | .emitted o => some o | _ => none)

/-- `parse_pack_file` from src/pack.rs: the object list it returns. -/
def parse_pack_file (dz : Decomp) (data : List Nat) (offsets : List (String × Nat)) :
    Except String (List GitObject) :=
  match packTrace dz data offsets with
  | .error e => .error e
  | .ok nt => .ok (emittedObjects nt.2)

/-- Number of iterations of a trace that emitted an object. -/
def countEmitted (trace : List (Nat × RecordOutcome)) : Nat :=
  (trace.filter (fun t => match t.2 with | .emitted _ => true | _ => false)).length

/-- Number of iterations of a trace that ended in a record-level
failure. -/
def countFailed (trace : List (Nat × RecordOutcome)) : Nat :=
  (trace.filter (fun t => match t.2 with | .failed => true | _ => false)).length


/-! # Theorems -/

/-! ### Padding lemmas -/

theorem pad8Aux_length_mod (fuel : Nat) :
    ∀ l : List Nat, (8 - l.length % 8) % 8 ≤ fuel → (pad8Aux fuel l).length % 8 = 0 := by
  induction fuel with
  | zero => intro l h; simp only [pad8Aux]; omega
  | succ n ih =>
    intro l h
    simp only [pad8Aux]
    split
    · assumption
    · apply ih
      simp only [List.length_append, List.length_cons, List.length_nil]
      omega

theorem pad8_length_mod (l : List Nat) : (pad8 l).length % 8 = 0 :=
  pad8Aux_length_mod 8 l (by omega)

/-- C5 (counterexample): for a staging map whose first entry is
`a.txt`, that entry starts right after the 12-byte header and its byte
span — ctime through trailing NUL and padding — is 68 bytes, which is
not a multiple of 8. -/
theorem C5_counterexample :
    (write_index_entry [68, 73, 82, 67, 0, 0, 0, 2, 0, 0, 0, 1] "a.txt"
        ⟨"0000000000000000000000000000000000000000", 33188, 1, 1700000000⟩).map
      (fun c => (c.length - 12, (c.length - 12) % 8)) = .ok (68, 4) ∧ (4 : Nat) ≠ 0 :=
  ⟨by decide, by decide⟩

/-- C5 (amended): each serialized staging entry is padded so that the
cumulative buffer length after it — the absolute file offset — is a
multiple of 8; an individual entry's span is a multiple of 8 only when
the entry starts on an 8-byte boundary, which the first entry (placed
after the 12-byte header) does not. -/
theorem C5_amended (content : List Nat) (path : String) (e : IndexEntry) (c : List Nat)
    (h : write_index_entry content path e = .ok c) : c.length % 8 = 0 := by
  unfold write_index_entry at h
  split at h
  · exact absurd h (by simp)
  · split at h
    · exact absurd h (by simp)
    · rw [Except.ok.injEq] at h
      rw [← h]
      exact pad8_length_mod _

/-- Witness for C5 (amended): the concrete serialized buffer after the
`a.txt` entry is 80 bytes long. -/
theorem C5_amended_witness :
    ([68, 73, 82, 67, 0, 0, 0, 2, 0, 0, 0, 1, 101, 83, 241, 0, 0, 0, 0, 0, 101, 83, 241,
      0, 0, 0, 0, 0, 0, 0, 0, 0, 0, 0, 0, 0, 0, 0, 129, 164, 0, 0, 0, 0, 0, 0, 0, 0, 0,
      0, 0, 1, 0, 0, 0, 0, 0, 0, 0, 0, 0, 0, 0, 0, 0, 0, 0, 0, 0, 0, 0, 0, 0, 5, 97, 46,
      116, 120, 116, 0] : List Nat).length % 8 = 0 :=
  C5_amended [68, 73, 82, 67, 0, 0, 0, 2, 0, 0, 0, 1] "a.txt"
    ⟨"0000000000000000000000000000000000000000", 33188, 1, 1700000000⟩ _ (by decide)

/-! ### C7: invalid zlib header handling in skip_zlib_data -/

/-- C7 (counterexample): on two header bytes that fail the zlib checks
the subroutine does report the invalid-header error, but the cursor is
left two bytes past its entry position (the two header bytes it read
stay consumed), not at the entry position. -/
theorem C7_counterexample :
    skip_zlib_data (fun _ => .errOther) [0, 0] 0 = (.error "Invalid zlib header", 2) ∧
    (2 : Nat) ≠ 0 :=
  ⟨by decide, by decide⟩

/-- C7 (amended): whenever the two bytes at the cursor fail the zlib
validity checks, `skip_zlib_data` returns the invalid-zlib-header error
and leaves the cursor exactly two bytes past its entry position: the
two header bytes read by `read_exact` remain consumed, and no further
seeking happens. -/
theorem C7_amended (dz : Decomp) (data : List Nat) (pos : Nat)
    (hlen : pos + 2 ≤ data.length)
    (hbad : data.getD pos 0 &&& 15 ≠ 8 ∨ 112 < data.getD pos 0 &&& 240 ∨
            (data.getD pos 0 * 256 + data.getD (pos + 1) 0) % 31 ≠ 0) :
    skip_zlib_data dz data pos = (.error "Invalid zlib header", pos + 2) := by
  unfold skip_zlib_data
  rw [if_neg (by omega), if_neg (by omega), if_pos hbad]

/-- Witness for C7 (amended) on the concrete all-zero header bytes. -/
theorem C7_amended_witness :
    skip_zlib_data (fun _ => .errOther) [0, 0, 5] 0 = (.error "Invalid zlib header", 0 + 2) :=
  C7_amended (fun _ => .errOther) [0, 0, 5] 0 (by decide) (by decide)


/-! ### C3: recovery position after a record-level failure -/

/-- C3 (counterexample): in a pack declaring two objects whose first
record byte encodes the unknown type 0, the first record attempt starts
at offset 12 and fails, and the next attempt starts at offset 14 — two
bytes past the failed record's start, not one. -/
theorem C3_counterexample :
    packTrace (fun _ => .errOther) [80, 65, 67, 75, 0, 0, 0, 2, 0, 0, 0, 2, 0, 0, 0] [] =
      .ok (2, [(12, .failed), (14, .failed)]) ∧ (14 : Nat) ≠ 12 + 1 :=
  ⟨by decide, by decide⟩

theorem header_unknown_type (data : List Nat) (pos : Nat) (hlt : pos < data.length)
    (hty : pobjTypeOf (data.getD pos 0 >>> 4 &&& 7) = none) :
    read_object_header data pos = (.error "Unknown object type in pack file", pos + 1) := by
  unfold read_object_header
  rw [if_neg (by omega)]
  simp only [hty]

/-- On a header-read failure the record attempt fails and resumes one
byte past the position the header reader returned. -/
theorem recordStep_header_err (dz : Decomp) (data : List Nat)
    (offsets : List (String × Nat)) (pos : Nat) (e : String) (p : Nat)
    (h : read_object_header data pos = (.error e, p)) :
    recordStep dz data offsets pos = (.failed, p + 1) := by
  unfold recordStep
  rw [h]

/-- An unknown type byte makes the attempt resume two bytes past the
record start: the type byte stays consumed, plus the recovery byte. -/
theorem recordStep_unknown_type (dz : Decomp) (data : List Nat)
    (offsets : List (String × Nat)) (pos : Nat)
    (hlt : pos < data.length) (hty : pobjTypeOf (data.getD pos 0 >>> 4 &&& 7) = none) :
    recordStep dz data offsets pos = (.failed, pos + 2) := by
  unfold recordStep
  rw [header_unknown_type data pos hlt hty]

/-! ### C2: idx parsing at a well-formed version-1 file -/

/-- C2: a well-formed version-1 idx file with one record — fanout table
with entry 255 equal to 1 at bytes 1020..1024, then the record
`(offset 12, hash ab…ab)` — is parsed into a mapping whose only pair
holds neither the stored hash nor the stored offset: the reader takes
the hash bytes from the wrong region (the offset plus the first 16 hash
bytes) and the offset from the last 4 hash bytes. -/
theorem C2_idx_v1_wrong_mapping :
    parse_idx_file (List.replicate 1020 0 ++ [0, 0, 0, 1] ++ [0, 0, 0, 12] ++
        List.replicate 20 171) =
      .ok [("0000000cabababababababababababababababab", 2880154539)] ∧
    "0000000cabababababababababababababababab" ≠
      "abababababababababababababababababababab" ∧ (2880154539 : Nat) ≠ 12 :=
  ⟨by decide, by decide, by decide⟩

/-! ### C1: one `add` invocation with two file arguments -/

/-- C1: running `add b.txt a.txt` (both existing regular files) against
an absent staging file writes, at the end of the invocation, a staging
file whose header entry count is 1 and which contains the path bytes of
`a.txt` but not those of `b.txt`: the second `add_path` reloads the map
through the stub `parse_index` and discards the `b.txt` entry. -/
theorem C1_second_add_overwrites_first :
    (executeAdd none
        [⟨"b.txt", [120], false, 1700000000⟩, ⟨"a.txt", [121], false, 1700000000⟩]).map
      (fun disk => disk.map (fun bytes =>
        ((bytes.drop 8).take 4, containsSeq bytes (strBytes "a.txt"),
         containsSeq bytes (strBytes "b.txt")))) =
      .ok (some ([0, 0, 0, 1], true, false)) := by decide

/-! ### C10: record attempts against the declared object count -/

theorem counts_le_length (trace : List (Nat × RecordOutcome)) :
    countEmitted trace + countFailed trace ≤ trace.length := by
  induction trace with
  | nil => simp [countEmitted, countFailed]
  | cons x xs ih =>
    rcases x with ⟨off, out⟩
    cases out <;>
      simp only [countEmitted, countFailed, List.filter_cons, List.length_cons] at ih ⊢ <;>
      simp <;> omega

theorem packLoop_length_le (dz : Decomp) (data : List Nat) (offsets : List (String × Nat))
    (num : Nat) : ∀ (fuel processed pos : Nat) (acc : List (Nat × RecordOutcome)),
    (packLoop dz data offsets num fuel processed pos acc).length ≤ acc.length + fuel := by
  intro fuel
  induction fuel with
  | zero => intro processed pos acc; simp [packLoop]
  | succ n ih =>
    intro processed pos acc
    simp only [packLoop]
    split
    · refine le_trans (ih (processed + 1) _ _) ?_
      simp only [List.length_append, List.length_cons, List.length_nil]
      omega
    · omega

/-- C10: each iteration of the record loop — emitting, skipping a
delta, or failing — consumes one unit of the declared object count, so
the number of emitted objects plus the number of failed attempts never
exceeds the count declared in the pack header. -/
theorem C10_attempts_bounded (dz : Decomp) (data : List Nat) (offsets : List (String × Nat))
    (num : Nat) (trace : List (Nat × RecordOutcome))
    (h : packTrace dz data offsets = .ok (num, trace)) :
    countEmitted trace + countFailed trace ≤ num := by
  simp only [packTrace] at h
  split at h
  · exact absurd h (by simp)
  split at h
  · exact absurd h (by simp)
  split at h
  · exact absurd h (by simp)
  split at h
  · exact absurd h (by simp)
  split at h
  · exact absurd h (by simp)
  rw [Except.ok.injEq, Prod.mk.injEq] at h
  obtain ⟨h1, h2⟩ := h
  subst h1
  refine le_trans (counts_le_length trace) ?_
  rw [← h2]
  simpa using packLoop_length_le dz data offsets _ _ 0 12 []

/-- Witness for C10 at a concrete two-record pack. -/
theorem C10_attempts_bounded_witness :
    countEmitted [(12, .failed), (14, .failed)] +
      countFailed [(12, .failed), (14, .failed)] ≤ 2 :=
  C10_attempts_bounded (fun _ => .errOther)
    [80, 65, 67, 75, 0, 0, 0, 2, 0, 0, 0, 2, 0, 0, 0] [] 2
    [(12, .failed), (14, .failed)] (by decide)

/-! ### C4: placeholder-hashed objects and the commit counter -/

/-- C4 (counterexample): a pack whose single record is a commit of size
0 at offset 12, walked with an empty index mapping, emits an object
with the placeholder hash `unknown_12` whose type is `commit`, not
`unknown` — and the commit counter counts it. -/
theorem C4_counterexample :
    parse_pack_file (fun s => if s = [120, 156, 3, 0, 0, 0, 0, 1] then .ok [] 8 else .errOther)
        [80, 65, 67, 75, 0, 0, 0, 2, 0, 0, 0, 1, 16, 120, 156, 3, 0, 0, 0, 0, 1] [] =
      .ok [⟨"unknown_12", .commit, 0, []⟩] ∧
    count_all_commits [⟨"unknown_12", ObjectType.commit, 0, []⟩] = 1 ∧
    ObjectType.commit ≠ ObjectType.unknown :=
  ⟨by decide, by decide, by decide⟩

/-! ### C6: hex_to_bytes acceptance and rejection -/

theorem hexVal_lt (a v : Nat) (h : hexVal a = some v) : v < 16 := by
  unfold hexVal at h
  split at h
  · rw [Option.some.injEq] at h; omega
  · split at h
    · rw [Option.some.injEq] at h; omega
    · split at h
      · rw [Option.some.injEq] at h; omega
      · simp at h

theorem chunk2_bad (a b : Nat)
    (h : (hexVal a = none ∧ a ≠ 43 ∧ a ≠ 45) ∨ (hexVal b = none ∧ b ≠ 43 ∧ b ≠ 45)) :
    fromStrRadix16 [a, b] = none := by
  rcases h with ⟨ha, ha43, ha45⟩ | ⟨hb, hb43, hb45⟩
  · simp only [fromStrRadix16, if_neg ha43, if_neg ha45, radixAccum, ha]
  · by_cases h43 : a = 43
    · simp only [fromStrRadix16, if_pos h43, List.isEmpty_cons, radixAccum, hb]
      simp
    · by_cases h45 : a = 45
      · simp only [fromStrRadix16, if_neg h43, if_pos h45, List.isEmpty_cons, radixAccum, hb]
        simp
      · simp only [fromStrRadix16, if_neg h43, if_neg h45, radixAccum]
        cases hva : hexVal a with
        | none => simp
        | some v =>
          have hv := hexVal_lt a v hva
          simp only [hb]
          rw [if_neg (by omega)]
          simp only [ite_self]

theorem chunk1_bad (a : Nat) (h : hexVal a = none ∧ a ≠ 43 ∧ a ≠ 45) :
    fromStrRadix16 [a] = none := by
  obtain ⟨ha, ha43, ha45⟩ := h
  simp only [fromStrRadix16, if_neg ha43, if_neg ha45, radixAccum, ha]

theorem hex_error_aux : ∀ (n : Nat) (bs : List Nat), bs.length ≤ n →
    (∃ x ∈ bs, hexVal x = none ∧ x ≠ 43 ∧ x ≠ 45) →
    ∃ e, hex_to_bytes bs = .error e := by
  intro n
  induction n with
  | zero =>
    rintro bs hlen ⟨x, hx, _⟩
    have hb : bs = [] := List.eq_nil_of_length_eq_zero (by omega)
    subst hb
    simp at hx
  | succ n ih =>
    intro bs hlen hbad
    match bs with
    | [] =>
      obtain ⟨x, hx, _⟩ := hbad
      simp at hx
    | [a] =>
      obtain ⟨x, hx, hb⟩ := hbad
      simp only [List.mem_singleton] at hx
      subst hx
      refine ⟨"Invalid hex digit", ?_⟩
      unfold hex_to_bytes
      rw [chunk1_bad x hb]
    | a :: b :: rest =>
      obtain ⟨x, hx, hb⟩ := hbad
      simp only [List.mem_cons] at hx
      rcases hx with hxa | hxb | hmem
      · subst hxa
        refine ⟨"Invalid hex digit", ?_⟩
        unfold hex_to_bytes
        rw [chunk2_bad x b (Or.inl hb)]
      · subst hxb
        refine ⟨"Invalid hex digit", ?_⟩
        unfold hex_to_bytes
        rw [chunk2_bad a x (Or.inr hb)]
      · cases hc : fromStrRadix16 [a, b] with
        | none =>
          refine ⟨"Invalid hex digit", ?_⟩
          unfold hex_to_bytes
          rw [hc]
        | some v =>
          obtain ⟨e, he⟩ := ih rest (by simp at hlen; omega) ⟨x, hmem, hb⟩
          refine ⟨e, ?_⟩
          unfold hex_to_bytes
          rw [hc, he]

/-- C6 (counterexample): `hex_to_bytes` accepts the odd-length hex
string `abc` (two chunks `ab` and `c`) and the uppercase string `ABC`,
returning byte vectors instead of errors. -/
theorem C6_counterexample :
    hex_to_bytes (strBytes "abc") = .ok [171, 12] ∧
    hex_to_bytes (strBytes "ABC") = .ok [171, 12] :=
  ⟨by decide, by decide⟩

/-- C6 (amended): `hex_to_bytes` returns an error whenever its input
contains a byte that is neither an ASCII hexadecimal digit (of either
case) nor one of the sign bytes accepted by the integer parser; it
accepts odd-length strings of hex digits and uppercase hex digits,
decoding uppercase exactly like lowercase. -/
theorem C6_amended :
    (∀ bs : List Nat, (∃ x ∈ bs, hexVal x = none ∧ x ≠ 43 ∧ x ≠ 45) →
      ∃ e, hex_to_bytes bs = .error e) ∧
    hex_to_bytes (strBytes "abc") = .ok [171, 12] ∧
    hex_to_bytes (strBytes "AB") = hex_to_bytes (strBytes "ab") :=
  ⟨fun bs h => hex_error_aux bs.length bs le_rfl h, by decide, by decide⟩

/-- Witness for C6 (amended) at the concrete input `zz`. -/
theorem C6_amended_witness :
    ∃ e, hex_to_bytes (strBytes "zz") = .error e :=
  C6_amended.1 (strBytes "zz") ⟨122, by decide, by decide, by decide, by decide⟩


/-! ### C9: the staging file's trailing checksum -/

theorem hexDigitChar_ascii (n : Nat) (h : n < 16) : (hexDigitChar n).toNat < 128 := by
  have hall : ∀ m, m < 16 → (hexDigitChar m).toNat < 128 := by decide
  exact hall n h

theorem toHex8Chars_ascii (w : Nat) : ∀ c ∈ toHex8Chars w, c.toNat < 128 := by
  intro c hc
  simp only [toHex8Chars, List.mem_cons, List.not_mem_nil, or_false] at hc
  rcases hc with rfl | rfl | rfl | rfl | rfl | rfl | rfl | rfl <;>
    exact hexDigitChar_ascii _ (Nat.mod_lt _ (by omega))

theorem strBytes_ascii : ∀ cs : List Char, (∀ c ∈ cs, c.toNat < 128) →
    strBytes ⟨cs⟩ = cs.map Char.toNat := by
  intro cs h
  induction cs with
  | nil => rfl
  | cons c rest ih =>
    have hc : c.toNat < 128 := h c (by simp)
    have hrest := ih (fun x hx => h x (by simp [hx]))
    simp only [strBytes, List.flatMap_cons, List.map_cons] at hrest ⊢
    rw [hrest]
    unfold utf8Bytes
    rw [if_pos hc]
    simp

theorem hexPair_decode (a b : Nat) (ha : a < 16) (hb : b < 16) :
    fromStrRadix16 [(hexDigitChar a).toNat, (hexDigitChar b).toNat] = some (16 * a + b) := by
  have hall : ∀ x, x < 16 → ∀ y, y < 16 →
      fromStrRadix16 [(hexDigitChar x).toNat, (hexDigitChar y).toNat] = some (16 * x + y) := by
    decide
  exact hall a ha b hb

theorem hex_to_bytes_cons2 (a b : Nat) (rest : List Nat) (v : Nat) (vs : List Nat)
    (hc : fromStrRadix16 [a, b] = some v) (hr : hex_to_bytes rest = .ok vs) :
    hex_to_bytes (a :: b :: rest) = .ok (v :: vs) := by
  unfold hex_to_bytes
  rw [hc, hr]

theorem hexPairByte_decode (q : Nat) (rest : List Nat) (vs : List Nat)
    (hr : hex_to_bytes rest = .ok vs) :
    hex_to_bytes ((hexDigitChar (q / 16 % 16)).toNat :: (hexDigitChar (q % 16)).toNat :: rest) =
      .ok (q % 256 :: vs) := by
  rw [hex_to_bytes_cons2 _ _ _ _ _
    (hexPair_decode (q / 16 % 16) (q % 16) (by omega) (by omega)) hr]
  have e : 16 * (q / 16 % 16) + q % 16 = q % 256 := by omega
  rw [e]

theorem hex8_decode (w : Nat) (rest : List Nat) (vs : List Nat)
    (hr : hex_to_bytes rest = .ok vs) :
    hex_to_bytes ((toHex8Chars w).map Char.toNat ++ rest) = .ok (toBE32 w ++ vs) := by
  have d1 : w / 268435456 = w / 16777216 / 16 := by rw [Nat.div_div_eq_div_mul]
  have d2 : w / 1048576 = w / 65536 / 16 := by rw [Nat.div_div_eq_div_mul]
  have d3 : w / 4096 = w / 256 / 16 := by rw [Nat.div_div_eq_div_mul]
  simp only [toHex8Chars, toBE32, List.map_cons, List.map_nil, List.cons_append,
    List.nil_append]
  rw [d1, d2, d3]
  exact hexPairByte_decode _ _ _ (hexPairByte_decode _ _ _
    (hexPairByte_decode _ _ _ (hexPairByte_decode _ _ _ hr)))

theorem sha1_checksum_bytes (b : List Nat) :
    hex_to_bytes (strBytes (sha1_hash b)) = .ok (sha1Bytes b) := by
  rcases hw : sha1Words b with ⟨h0, h1, h2, h3, h4⟩
  unfold sha1_hash sha1Bytes
  rw [hw]
  have hascii : ∀ c ∈ toHex8Chars h0 ++ toHex8Chars h1 ++ toHex8Chars h2 ++
      toHex8Chars h3 ++ toHex8Chars h4, c.toNat < 128 := by
    intro c hc
    simp only [List.mem_append] at hc
    rcases hc with ((((hc | hc) | hc) | hc) | hc) <;> exact toHex8Chars_ascii _ c hc
  rw [strBytes_ascii _ hascii]
  simp only [List.map_append]
  have e4 := hex8_decode h4 [] [] rfl
  simp only [List.append_nil] at e4
  have e3 := hex8_decode h3 _ _ e4
  have e2 := hex8_decode h2 _ _ e3
  have e1 := hex8_decode h1 _ _ e2
  have e0 := hex8_decode h0 _ _ e1
  simpa [List.append_assoc] using e0

theorem sha1Bytes_length (b : List Nat) : (sha1Bytes b).length = 20 := by
  unfold sha1Bytes
  rcases hw : sha1Words b with ⟨h0, h1, h2, h3, h4⟩
  simp [toBE32]

/-- C9: for every staging map that serializes successfully, the
serialized staging file is its first `len - 20` bytes followed by
exactly the twenty SHA-1 digest bytes of those first bytes (the 12-byte
header plus every entry including padding). -/
theorem C9_trailing_checksum (index : List (String × IndexEntry)) (c : List Nat)
    (h : serialize_index index = .ok c) :
    20 ≤ c.length ∧
    c = c.take (c.length - 20) ++ sha1Bytes (c.take (c.length - 20)) ∧
    (sha1Bytes (c.take (c.length - 20))).length = 20 := by
  simp only [serialize_index] at h
  split at h
  · exact absurd h (by simp)
  · rename_i content heq
    rw [sha1_checksum_bytes] at h
    rw [Except.ok.injEq] at h
    subst h
    have hlen : (content ++ sha1Bytes content).length - 20 = content.length := by
      simp [sha1Bytes_length]
    refine ⟨?_, ?_, ?_⟩
    · simp only [List.length_append, sha1Bytes_length]; omega
    · rw [hlen, List.take_left]
    · rw [hlen, List.take_left, sha1Bytes_length]

/-- Witness for C9 at the empty staging map. -/
theorem C9_trailing_checksum_witness :
    20 ≤ ([68, 73, 82, 67, 0, 0, 0, 2, 0, 0, 0, 0, 57, 216, 144, 19, 158, 229, 53, 108,
      126, 245, 114, 33, 108, 235, 205, 39, 170, 65, 249, 223] : List Nat).length ∧
    ([68, 73, 82, 67, 0, 0, 0, 2, 0, 0, 0, 0, 57, 216, 144, 19, 158, 229, 53, 108,
      126, 245, 114, 33, 108, 235, 205, 39, 170, 65, 249, 223] : List Nat) =
      ([68, 73, 82, 67, 0, 0, 0, 2, 0, 0, 0, 0, 57, 216, 144, 19, 158, 229, 53, 108,
        126, 245, 114, 33, 108, 235, 205, 39, 170, 65, 249, 223] : List Nat).take
          (([68, 73, 82, 67, 0, 0, 0, 2, 0, 0, 0, 0, 57, 216, 144, 19, 158, 229, 53, 108,
            126, 245, 114, 33, 108, 235, 205, 39, 170, 65, 249, 223] : List Nat).length - 20) ++
        sha1Bytes (([68, 73, 82, 67, 0, 0, 0, 2, 0, 0, 0, 0, 57, 216, 144, 19, 158, 229,
          53, 108, 126, 245, 114, 33, 108, 235, 205, 39, 170, 65, 249, 223] : List Nat).take
          (([68, 73, 82, 67, 0, 0, 0, 2, 0, 0, 0, 0, 57, 216, 144, 19, 158, 229, 53, 108,
            126, 245, 114, 33, 108, 235, 205, 39, 170, 65, 249, 223] : List Nat).length - 20)) ∧
    (sha1Bytes (([68, 73, 82, 67, 0, 0, 0, 2, 0, 0, 0, 0, 57, 216, 144, 19, 158, 229,
      53, 108, 126, 245, 114, 33, 108, 235, 205, 39, 170, 65, 249, 223] : List Nat).take
      (([68, 73, 82, 67, 0, 0, 0, 2, 0, 0, 0, 0, 57, 216, 144, 19, 158, 229, 53, 108,
        126, 245, 114, 33, 108, 235, 205, 39, 170, 65, 249, 223] : List Nat).length - 20))).length
      = 20 :=
  C9_trailing_checksum []
    [68, 73, 82, 67, 0, 0, 0, 2, 0, 0, 0, 0, 57, 216, 144, 19, 158, 229, 53, 108,
     126, 245, 114, 33, 108, 235, 205, 39, 170, 65, 249, 223] (by decide)


/-! ### C4: supporting lemmas about decimal formatting and envelope parsing -/

theorem decDigitsAux_lt : ∀ (fuel n : Nat), n < 10 ∨ n ≤ fuel →
    ∀ d ∈ decDigitsAux fuel n, d < 10 := by
  intro fuel
  induction fuel with
  | zero =>
    intro n h d hd
    simp only [decDigitsAux, List.mem_singleton] at hd
    omega
  | succ f ih =>
    intro n h d hd
    simp only [decDigitsAux] at hd
    split at hd
    · simp only [List.mem_singleton] at hd
      omega
    · simp only [List.mem_append, List.mem_singleton] at hd
      rcases hd with hd | hd
      · refine ih (n / 10) (Or.inr (by omega)) d hd
      · omega

theorem decDigits_lt (n : Nat) : ∀ d ∈ decDigits n, d < 10 :=
  decDigitsAux_lt n n (Or.inr le_rfl)

theorem decDigitsAux_ne_nil (fuel n : Nat) : decDigitsAux fuel n ≠ [] := by
  cases fuel with
  | zero => simp [decDigitsAux]
  | succ f =>
    simp only [decDigitsAux]
    split
    · simp
    · simp

theorem decDigits_ne_nil (n : Nat) : decDigits n ≠ [] := decDigitsAux_ne_nil n n

theorem decDigitsAux_length_le : ∀ (k fuel n : Nat), 1 ≤ k → n < 10 ^ k →
    (decDigitsAux fuel n).length ≤ k := by
  intro k
  induction k with
  | zero => intro fuel n h; omega
  | succ k ih =>
    intro fuel n h1 hn
    cases fuel with
    | zero => simp [decDigitsAux]
    | succ f =>
      simp only [decDigitsAux]
      split
      · simp
      · rename_i hge
        have hk : 1 ≤ k := by
          rcases Nat.eq_zero_or_pos k with rfl | hp
        
          · simp at hn; omega
          · exact hp
        have hdiv : n / 10 < 10 ^ k := by
          have h10 : 10 ^ (k + 1) = 10 * 10 ^ k := by ring
          omega
        have := ih f (n / 10) hk hdiv
        simp only [List.length_append, List.length_cons, List.length_nil]
        omega

theorem decChars_toNat (n : Nat) :
    (decChars n).map Char.toNat = (decDigits n).map (fun d => 48 + d) := by
  unfold decChars
  rw [List.map_map]
  refine List.map_congr_left ?_
  intro d hd
  have hlt : d < 10 := decDigits_lt n d hd
  have hall : ∀ m, m < 10 → (Char.ofNat (48 + m)).toNat = 48 + m := by decide
  exact hall d hlt

theorem decAccum_some : ∀ (ds : List Nat) (acc : Nat),
    (∀ d ∈ ds, 48 ≤ d ∧ d ≤ 57) →
    acc * 10 ^ ds.length + 10 ^ ds.length ≤ U64 →
    ∃ v, decAccum false ds acc = some v := by
  intro ds
  induction ds with
  | nil => intro acc _ _; exact ⟨acc, rfl⟩
  | cons d ds ih =>
    intro acc hd hb
    have hdd := hd d (by simp)
    have hp : 0 < 10 ^ ds.length := Nat.pos_pow_of_pos _ (by omega)
    simp only [List.length_cons, pow_succ] at hb
    have hexp : acc * (10 ^ ds.length * 10) = acc * 10 * 10 ^ ds.length := by ring
    rw [hexp] at hb
    have hle : acc * 10 ≤ acc * 10 * 10 ^ ds.length := Nat.le_mul_of_pos_right _ hp
    have hdv : decVal d = some (d - 48) := by
      unfold decVal
      rw [if_pos (by omega : 48 ≤ d ∧ d ≤ 57)]
    simp only [decAccum, hdv, Bool.false_eq_true, if_false]
    rw [if_neg (by omega : ¬ U64 ≤ acc * 10)]
    rw [if_neg (by omega : ¬ U64 ≤ acc * 10 + (d - 48))]
    refine ih (acc * 10 + (d - 48)) (fun x hx => hd x (by simp [hx])) ?_
    have hexp2 : (acc * 10 + (d - 48)) * 10 ^ ds.length =
        acc * 10 * 10 ^ ds.length + (d - 48) * 10 ^ ds.length := by ring
    have hle2 : (d - 48) * 10 ^ ds.length ≤ 9 * 10 ^ ds.length :=
      Nat.mul_le_mul_right _ (by omega)
    have h9 : 9 * 10 ^ ds.length + 10 ^ ds.length = 10 ^ ds.length * 10 := by ring
    omega

theorem parseUsize_decChars (n : Nat) (hn : n < 1000000000) :
    ∃ v, parseUsize ((decChars n).map Char.toNat) = some v := by
  rw [decChars_toNat]
  rcases hds : decDigits n with _ | ⟨d0, rest⟩
  · exact absurd hds (decDigits_ne_nil n)
  · have hd0 : d0 < 10 := decDigits_lt n d0 (by rw [hds]; simp)
    have hdig : ∀ d ∈ decDigits n, 48 ≤ 48 + d ∧ 48 + d ≤ 57 := by
      intro d hd
      have := decDigits_lt n d hd
      omega
    have hlen : (decDigits n).length ≤ 9 :=
      decDigitsAux_length_le 9 n n (by omega) (by norm_num; omega)
    simp only [List.map_cons, parseUsize]
    rw [if_neg (by omega : ¬ 48 + d0 = 43), if_neg (by omega : ¬ 48 + d0 = 45)]
    have hshape : (48 + d0) :: rest.map (fun d => 48 + d) =
        (decDigits n).map (fun d => 48 + d) := by rw [hds]; simp
    rw [hshape]
    refine decAccum_some _ 0 ?_ ?_
    · intro x hx
      simp only [List.mem_map] at hx
      obtain ⟨d, hd, rfl⟩ := hx
      have := decDigits_lt n d hd
      omega
    · have hlen2 : ((decDigits n).map (fun d => 48 + d)).length ≤ 9 := by
        simpa using hlen
      have hpow : 10 ^ ((decDigits n).map (fun d => 48 + d)).length ≤ 10 ^ 9 :=
        Nat.pow_le_pow_right (by omega) hlen2
      have : (10 : Nat) ^ 9 = 1000000000 := by norm_num
      simp only [Nat.zero_mul, Nat.zero_add]
      unfold U64
      omega


theorem position0_append : ∀ (l rest : List Nat), (∀ b ∈ l, b ≠ 0) →
    position0 (l ++ 0 :: rest) = some l.length := by
  intro l
  induction l with
  | nil => intro rest _; simp [position0]
  | cons b bs ih =>
    intro rest h
    have hb : b ≠ 0 := h b (by simp)
    simp only [List.cons_append, position0, if_neg hb, List.append_eq]
    rw [ih rest (fun x hx => h x (by simp [hx]))]
    simp

theorem charOfNat_toNat (b : Nat) (h : b < 128) : (Char.ofNat b).toNat = b := by
  have hall : ∀ m, m < 128 → (Char.ofNat m).toNat = m := by decide
  exact hall b h

theorem splitSpace_no_space : ∀ (l : List Char), (∀ c ∈ l, c ≠ Char.ofNat 32) →
    splitSpace l = [l] := by
  intro l
  induction l with
  | nil => intro; rfl
  | cons c cs ih =>
    intro h
    simp only [splitSpace, if_neg (h c (by simp))]
    rw [ih (fun x hx => h x (by simp [hx]))]

theorem splitSpace_append_space : ∀ (l r : List Char), (∀ c ∈ l, c ≠ Char.ofNat 32) →
    splitSpace (l ++ Char.ofNat 32 :: r) = l :: splitSpace r := by
  intro l
  induction l with
  | nil => intro r _; simp [splitSpace]
  | cons c cs ih =>
    intro r h
    have hc : c ≠ Char.ofNat 32 := h c (by simp)
    simp only [List.cons_append, splitSpace, if_neg hc, List.append_eq]
    rw [ih r (fun x hx => h x (by simp [hx]))]

theorem asciiDecode_lt (l : List Nat) (h : ∀ b ∈ l, b < 128) :
    asciiDecode l = some (l.map Char.ofNat) := by
  unfold asciiDecode
  rw [if_pos]
  simp only [List.all_eq_true, decide_eq_true_eq]
  exact h

theorem decChars_roundtrip (n : Nat) :
    ((decChars n).map Char.toNat).map Char.ofNat = decChars n := by
  rw [List.map_map]
  have hmem : ∀ c ∈ decChars n, Char.ofNat c.toNat = c := by
    intro c hc
    unfold decChars at hc
    simp only [List.mem_map] at hc
    obtain ⟨d, hd, rfl⟩ := hc
    have hlt : d < 10 := decDigits_lt n d hd
    rw [charOfNat_toNat (48 + d) (by omega)]
  calc (decChars n).map (Char.ofNat ∘ Char.toNat)
      = (decChars n).map id := List.map_congr_left (by
        intro c hc
        simp only [Function.comp_apply, id_eq]
        exact hmem c hc)
    _ = decChars n := List.map_id _

/-- Successful parsing of a reconstructed pack envelope
`"<type> <decimal-size>\0<payload>"`: the first NUL is the separator
byte, the header decodes and splits into the type name and the decimal
size, and the resulting object carries the payload and the type the
name maps to. -/
theorem parse_object_data_envelope (hash : String) (L : List Nat) (n : Nat)
    (payload : List Nat) (hL : ∀ b ∈ L, b < 128 ∧ b ≠ 0 ∧ b ≠ 32)
    (hn : n < 1000000000) :
    ∃ v, parse_object_data hash
        (L ++ [32] ++ (decChars n).map Char.toNat ++ [0] ++ payload) =
      .ok ⟨hash,
        (if L.map Char.ofNat = "commit".data then ObjectType.commit
         else if L.map Char.ofNat = "tree".data then ObjectType.tree
         else if L.map Char.ofNat = "blob".data then ObjectType.blob
         else if L.map Char.ofNat = "tag".data then ObjectType.tag
         else ObjectType.unknown), v, payload⟩ := by
  have hdigbytes : ∀ b ∈ (decChars n).map Char.toNat, 48 ≤ b ∧ b ≤ 57 := by
    rw [decChars_toNat]
    intro b hb
    simp only [List.mem_map] at hb
    obtain ⟨d, hd, rfl⟩ := hb
    have := decDigits_lt n d hd
    omega
  set H := L ++ [32] ++ (decChars n).map Char.toNat with hH
  have hHlt : ∀ b ∈ H, b < 128 := by
    intro b hb
    rw [hH] at hb
    simp only [List.mem_append] at hb
    rcases hb with (hb | hb) | hb
    · exact (hL b hb).1
    · simp at hb; omega
    · have := hdigbytes b hb; omega
  have hHnz : ∀ b ∈ H, b ≠ 0 := by
    intro b hb
    rw [hH] at hb
    simp only [List.mem_append] at hb
    rcases hb with (hb | hb) | hb
    · exact (hL b hb).2.1
    · simp at hb; omega
    · have := hdigbytes b hb; omega
  have hsplit : L ++ [32] ++ (decChars n).map Char.toNat ++ [0] ++ payload =
      H ++ 0 :: payload := by
    rw [hH]
    simp [List.append_assoc]
  have htake : (H ++ 0 :: payload).take H.length = H := List.take_left H (0 :: payload)
  have hdrop : (H ++ 0 :: payload).drop (H.length + 1) = payload := by
    have h1 : H ++ 0 :: payload = (H ++ [0]) ++ payload := by simp
    have h2 : H.length + 1 = (H ++ [0]).length := by simp
    rw [h1, h2, List.drop_left]
  have hmapH : H.map Char.ofNat = L.map Char.ofNat ++ Char.ofNat 32 :: decChars n := by
    rw [hH]
    simp only [List.map_append]
    rw [decChars_roundtrip]
    simp
  have hLnospace : ∀ c ∈ L.map Char.ofNat, c ≠ Char.ofNat 32 := by
    intro c hc
    simp only [List.mem_map] at hc
    obtain ⟨b, hb, rfl⟩ := hc
    obtain ⟨hb1, _, hb3⟩ := hL b hb
    intro hcontra
    have h32 := congrArg Char.toNat hcontra
    rw [charOfNat_toNat b hb1, charOfNat_toNat 32 (by omega)] at h32
    exact hb3 h32
  have hDnospace : ∀ c ∈ decChars n, c ≠ Char.ofNat 32 := by
    intro c hc
    unfold decChars at hc
    simp only [List.mem_map] at hc
    obtain ⟨d, hd, rfl⟩ := hc
    have hlt : d < 10 := decDigits_lt n d hd
    intro hcontra
    have h32 := congrArg Char.toNat hcontra
    rw [charOfNat_toNat (48 + d) (by omega), charOfNat_toNat 32 (by omega)] at h32
    omega
  obtain ⟨v, hv⟩ := parseUsize_decChars n hn
  refine ⟨v, ?_⟩
  rw [hsplit]
  unfold parse_object_data
  rw [position0_append H payload hHnz]
  simp only [htake, hdrop, asciiDecode_lt H hHlt, hmapH,
    splitSpace_append_space _ _ hLnospace, splitSpace_no_space _ hDnospace,
    List.getD_cons_zero, List.getD_cons_succ, hv,
    List.length_cons, List.length_nil, List.length_singleton]
  simp


theorem read_object_header_size_le (data : List Nat) (pos : Nat) (ty : PObjType)
    (size p : Nat) (h : read_object_header data pos = (.ok (ty, size), p)) :
    size ≤ 104857600 := by
  simp only [read_object_header] at h
  split at h
  · simp at h
  · split at h
    · simp at h
    · split at h
      · simp at h
      · split at h
        · simp at h
        · rename_i hle
          simp only [Prod.mk.injEq, Except.ok.injEq] at h
          have := h.1.2
          omega

theorem parse_envelope_type_not_unknown (hash : String) (ty : PObjType) (n : Nat)
    (payload : List Nat) (obj : GitObject)
    (hbase : ty ≠ PObjType.ofsDelta ∧ ty ≠ PObjType.refDelta)
    (hn : n ≤ 104857600)
    (hparse : parse_object_data hash (strBytes (pobjTypeStr ty) ++ [32] ++
      (decChars n).map Char.toNat ++ [0] ++ payload) = .ok obj) :
    obj.objectType ≠ ObjectType.unknown := by
  obtain ⟨v, hv⟩ := parse_object_data_envelope hash (strBytes (pobjTypeStr ty)) n payload
    (by cases ty <;> decide) (by omega)
  rw [hparse, Except.ok.injEq] at hv
  rw [hv]
  dsimp only
  cases ty
  case ofsDelta => exact absurd rfl hbase.1
  case refDelta => exact absurd rfl hbase.2
  all_goals decide

theorem recordStep_emitted (dz : Decomp) (data : List Nat) (offsets : List (String × Nat))
    (pos : Nat) (obj : GitObject) (p : Nat)
    (h : recordStep dz data offsets pos = (.emitted obj, p)) :
    obj.objectType ≠ ObjectType.unknown := by
  rcases hres : read_object_header data pos with ⟨e | ⟨ty, size⟩, p1⟩
  · simp only [recordStep, hres] at h
    simp at h
  · have hsize := read_object_header_size_le data pos ty size p1 hres
    simp only [recordStep, hres] at h
    split at h
    · rcases hofs : read_offset_delta data p1 with ⟨e2 | off2, p2⟩
      · simp only [hofs] at h; simp at h
      · simp only [hofs] at h
        rcases hskip : skip_zlib_data dz data p2 with ⟨e3 | u3, p3⟩
        · simp only [hskip] at h; simp at h
        · simp only [hskip] at h; simp at h
    · split at h
      · simp at h
      · rcases hskip : skip_zlib_data dz data (p1 + 20) with ⟨e3 | u3, p3⟩
        · simp only [hskip] at h; simp at h
        · simp only [hskip] at h; simp at h
    · rename_i ty2 hne1 hne2
      rcases hz : read_zlib_data dz data p1 size with ⟨e2 | payload, p2⟩
      · simp only [hz] at h; simp at h
      · simp only [hz] at h
        split at h
        · rename_i obj2 hparse
          simp only [Prod.mk.injEq, RecordOutcome.emitted.injEq] at h
          rw [← h.1]
          exact parse_envelope_type_not_unknown _ _ _ _ _ ⟨hne1, hne2⟩ hsize hparse
        · simp at h

theorem sizeLoop_le (data : List Nat) : ∀ (fuel cur size shift p : Nat),
    p ≤ (sizeLoop data fuel cur size shift p).2 := by
  intro fuel
  induction fuel with
  | zero => intro _ _ _ p; exact le_refl p
  | succ f ih =>
    intro cur size shift p
    simp only [sizeLoop]
    split
    · split
      · exact le_refl p
      · split
        · exact Nat.le_succ p
        · exact le_trans (Nat.le_succ p) (ih _ _ _ (p + 1))
    · exact le_refl p

theorem read_object_header_le (data : List Nat) (pos : Nat)
    (r : Except String (PObjType × Nat)) (p : Nat)
    (h : read_object_header data pos = (r, p)) : pos ≤ p := by
  simp only [read_object_header] at h
  split at h
  · injection h with h1 h2
    omega
  · split at h
    · injection h with h1 h2
      omega
    · split at h
      · rename_i e2 p2 heq
        have hs := sizeLoop_le data 10 (data.getD pos 0) (data.getD pos 0 &&& 15) 4 (pos + 1)
        rw [heq] at hs
        have hs2 : pos + 1 ≤ p2 := hs
        injection h with h1 h2
        omega
      · rename_i size2 p2 heq
        have hs := sizeLoop_le data 10 (data.getD pos 0) (data.getD pos 0 &&& 15) 4 (pos + 1)
        rw [heq] at hs
        have hs2 : pos + 1 ≤ p2 := hs
        split at h <;> (injection h with h1 h2; omega)

theorem read_object_header_ok_lt (data : List Nat) (pos : Nat) (ty : PObjType)
    (size p : Nat) (h : read_object_header data pos = (.ok (ty, size), p)) :
    pos < p ∧ pos < data.length := by
  simp only [read_object_header] at h
  split at h
  · simp at h
  · rename_i hpos
    refine ⟨?_, by omega⟩
    split at h
    · simp at h
    · split at h
      · simp at h
      · rename_i size2 p2 heq
        have hs := sizeLoop_le data 10 (data.getD pos 0) (data.getD pos 0 &&& 15) 4 (pos + 1)
        rw [heq] at hs
        have hs2 : pos + 1 ≤ p2 := hs
        split at h
        · simp at h
        · injection h with h1 h2
          omega

theorem ofsLoop_le (data : List Nat) : ∀ (fuel byte off p : Nat),
    p ≤ (ofsLoop data fuel byte off p).2 := by
  intro fuel
  induction fuel with
  | zero => intro _ _ p; exact le_refl p
  | succ f ih =>
    intro byte off p
    simp only [ofsLoop]
    split
    · split
      · exact le_refl p
      · split
        · exact Nat.le_succ p
        · exact le_trans (Nat.le_succ p) (ih _ _ (p + 1))
    · exact le_refl p

theorem read_offset_delta_le (data : List Nat) (p : Nat) (r : Except String Nat)
    (p2 : Nat) (h : read_offset_delta data p = (r, p2)) : p ≤ p2 := by
  simp only [read_offset_delta] at h
  split at h
  · injection h with h1 h2
    omega
  · have hs := ofsLoop_le data 10 (data.getD p 0) (data.getD p 0 &&& 127) (p + 1)
    rw [h] at hs
    have hs2 : p + 1 ≤ p2 := hs
    omega

theorem skipProbe_lt (dz : Decomp) (data : List Nat) (startPos : Nat) :
    ∀ (fuel testSize : Nat), startPos < (skipProbe dz data startPos fuel testSize).2 := by
  intro fuel
  induction fuel with
  | zero => intro _; exact Nat.lt_succ_self startPos
  | succ f ih =>
    intro t
    simp only [skipProbe]
    split
    · split
      · split
        · rename_i h0
          exact Nat.lt_add_of_pos_right h0
        · exact Nat.lt_succ_self startPos
      · split
        · exact Nat.lt_succ_self startPos
        · exact ih _
    · exact Nat.lt_succ_self startPos

theorem skip_zlib_data_le (dz : Decomp) (data : List Nat) (pos : Nat)
    (r : Except String Unit) (p2 : Nat)
    (h : skip_zlib_data dz data pos = (r, p2)) : pos ≤ p2 := by
  simp only [skip_zlib_data] at h
  split at h
  · injection h with h1 h2
    omega
  · rename_i hpos
    split at h
    · injection h with h1 h2
      omega
    · split at h
      · injection h with h1 h2
        omega
      · have hs := skipProbe_lt dz data pos 12 1024
        rw [h] at hs
        have hs2 : pos < p2 := hs
        omega

theorem read_zlib_data_le (dz : Decomp) (data : List Nat) (pos sz : Nat)
    (r : Except String (List Nat)) (p2 : Nat)
    (h : read_zlib_data dz data pos sz = (r, p2)) : pos ≤ p2 := by
  simp only [read_zlib_data] at h
  split at h
  · injection h with h1 h2
    omega
  · split at h
    · split at h <;> (injection h with h1 h2; omega)
    · split at h <;> (injection h with h1 h2; omega)
    · injection h with h1 h2
      omega

/-- On a data-read (decompression) failure of a base-type record the
attempt fails and resumes one byte past the position `read_zlib_data`
returned. -/
theorem recordStep_zlib_err (dz : Decomp) (data : List Nat)
    (offsets : List (String × Nat)) (pos : Nat) (ty : PObjType) (size p : Nat)
    (e : String) (p2 : Nat)
    (hres : read_object_header data pos = (.ok (ty, size), p))
    (hne1 : ty ≠ .ofsDelta) (hne2 : ty ≠ .refDelta)
    (hz : read_zlib_data dz data p size = (.error e, p2)) :
    recordStep dz data offsets pos = (.failed, p2 + 1) := by
  cases ty
  case ofsDelta => exact absurd rfl hne1
  case refDelta => exact absurd rfl hne2
  all_goals simp only [recordStep, hres, hz]

/-- On a hard decoder error the data reader itself consumes one byte
before returning, so the attempt resumes two bytes past the position at
which decompression began. -/
theorem recordStep_decomp_hard_err (dz : Decomp) (data : List Nat)
    (offsets : List (String × Nat)) (pos : Nat) (ty : PObjType) (size p : Nat)
    (hres : read_object_header data pos = (.ok (ty, size), p))
    (hne1 : ty ≠ .ofsDelta) (hne2 : ty ≠ .refDelta)
    (hp : p < data.length) (hdz : dz (data.drop p) = .errOther) :
    recordStep dz data offsets pos = (.failed, p + 2) := by
  have hz : read_zlib_data dz data p size = (.error "decompression error", p + 1) := by
    unfold read_zlib_data
    rw [if_neg (by omega), hdz]
  exact recordStep_zlib_err dz data offsets pos ty size p _ _ hres hne1 hne2 hz

/-- On a failed OFS_DELTA offset read the attempt fails and resumes one
byte past the position the offset reader returned. -/
theorem recordStep_ofs_err (dz : Decomp) (data : List Nat)
    (offsets : List (String × Nat)) (pos size p : Nat) (e : String) (p2 : Nat)
    (hres : read_object_header data pos = (.ok (.ofsDelta, size), p))
    (hofs : read_offset_delta data p = (.error e, p2)) :
    recordStep dz data offsets pos = (.failed, p2 + 1) := by
  simp only [recordStep, hres, hofs]

/-- On a failed payload skip of an OFS_DELTA record the attempt fails
and resumes one byte past the position the skip returned. -/
theorem recordStep_ofs_skip_err (dz : Decomp) (data : List Nat)
    (offsets : List (String × Nat)) (pos size p off p2 : Nat) (e : String) (p3 : Nat)
    (hres : read_object_header data pos = (.ok (.ofsDelta, size), p))
    (hofs : read_offset_delta data p = (.ok off, p2))
    (hskip : skip_zlib_data dz data p2 = (.error e, p3)) :
    recordStep dz data offsets pos = (.failed, p3 + 1) := by
  simp only [recordStep, hres, hofs, hskip]

/-- A REF_DELTA record whose 20-byte base hash is truncated consumes
the rest of the input and resumes one byte past the end of the data. -/
theorem recordStep_ref_trunc (dz : Decomp) (data : List Nat)
    (offsets : List (String × Nat)) (pos size p : Nat)
    (hres : read_object_header data pos = (.ok (.refDelta, size), p))
    (hlt : data.length < p + 20) :
    recordStep dz data offsets pos = (.failed, data.length + 1) := by
  simp only [recordStep, hres, if_pos hlt]

/-- On a failed payload skip of a REF_DELTA record the attempt fails
and resumes one byte past the position the skip returned. -/
theorem recordStep_ref_skip_err (dz : Decomp) (data : List Nat)
    (offsets : List (String × Nat)) (pos size p : Nat) (e : String) (p3 : Nat)
    (hres : read_object_header data pos = (.ok (.refDelta, size), p))
    (h20 : p + 20 ≤ data.length)
    (hskip : skip_zlib_data dz data (p + 20) = (.error e, p3)) :
    recordStep dz data offsets pos = (.failed, p3 + 1) := by
  simp only [recordStep, hres, if_neg (by omega : ¬ data.length < p + 20), hskip]

/-- A base-type record whose decompression succeeds is always emitted:
the envelope rebuilt from the decoded type string, the decimal size and
the payload always parses, so no record-level failure arises past a
successful data read. -/
theorem recordStep_zlib_ok_emits (dz : Decomp) (data : List Nat)
    (offsets : List (String × Nat)) (pos : Nat) (ty : PObjType) (size p : Nat)
    (payload : List Nat) (p2 : Nat)
    (hres : read_object_header data pos = (.ok (ty, size), p))
    (hne1 : ty ≠ .ofsDelta) (hne2 : ty ≠ .refDelta)
    (hz : read_zlib_data dz data p size = (.ok payload, p2)) :
    ∃ obj, recordStep dz data offsets pos = (.emitted obj, p2) := by
  have hsize := read_object_header_size_le data pos ty size p hres
  obtain ⟨v, hv⟩ := parse_object_data_envelope (recordHash offsets pos)
    (strBytes (pobjTypeStr ty)) size payload (by cases ty <;> decide) (by omega)
  cases ty
  case ofsDelta => exact absurd rfl hne1
  case refDelta => exact absurd rfl hne2
  all_goals simp only [recordStep, hres, hz, hv]
  all_goals exact ⟨_, rfl⟩

/-- Every record attempt that ends in a record-level failure strictly
advances the cursor: the resume position lies past the record start. -/
theorem recordStep_failed_lt (dz : Decomp) (data : List Nat)
    (offsets : List (String × Nat)) (pos q : Nat)
    (h : recordStep dz data offsets pos = (.failed, q)) : pos < q := by
  rcases hres : read_object_header data pos with ⟨e | ⟨ty, size⟩, p1⟩
  · have hle := read_object_header_le data pos (.error e) p1 hres
    simp only [recordStep, hres] at h
    injection h with h1 h2
    omega
  · obtain ⟨hlt, hpos⟩ := read_object_header_ok_lt data pos ty size p1 hres
    simp only [recordStep, hres] at h
    split at h
    · rcases hofs : read_offset_delta data p1 with ⟨e2 | off2, p2⟩
      · have hd := read_offset_delta_le data p1 (.error e2) p2 hofs
        simp only [hofs] at h
        injection h with h1 h2
        omega
      · have hd := read_offset_delta_le data p1 (.ok off2) p2 hofs
        simp only [hofs] at h
        rcases hskip : skip_zlib_data dz data p2 with ⟨e3 | u3, p3⟩
        · have hk := skip_zlib_data_le dz data p2 (.error e3) p3 hskip
          simp only [hskip] at h
          injection h with h1 h2
          omega
        · simp only [hskip] at h
          simp at h
    · split at h
      · injection h with h1 h2
        omega
      · rcases hskip : skip_zlib_data dz data (p1 + 20) with ⟨e3 | u3, p3⟩
        · have hk := skip_zlib_data_le dz data (p1 + 20) (.error e3) p3 hskip
          simp only [hskip] at h
          injection h with h1 h2
          omega
        · simp only [hskip] at h
          simp at h
    · rename_i ty2 hne1 hne2
      rcases hz : read_zlib_data dz data p1 size with ⟨e2 | payload, p2⟩
      · have hr := read_zlib_data_le dz data p1 size (.error e2) p2 hz
        simp only [hz] at h
        injection h with h1 h2
        omega
      · have hr := read_zlib_data_le dz data p1 size (.ok payload) p2 hz
        simp only [hz] at h
        split at h
        · simp at h
        · injection h with h1 h2
          omega

/-- C3 (amended): on every record-level failure the reader resumes one
byte past the cursor position at which the failing subroutine returned,
so the bytes consumed by the failed attempt stay consumed.  Case by
case: a header failure (unknown type, bad or oversized size, truncated
input) whose reader stops at `p` resumes at `p + 1`, so an unknown-type
record resumes two bytes past the record start; a failed base-object
decompression resumes one byte past the position the data reader
returned — on a hard decoder error that is two bytes past where
decompression began, because the reader's error path itself consumes a
byte; a failed OFS_DELTA offset read, a failed delta-payload skip, and
a REF_DELTA record with a truncated base hash (which consumes the rest
of the input) likewise resume one byte past the failing call's final
position; a base record whose decompression succeeds is emitted, never
failed, so these cases are exhaustive; and every failed attempt
strictly advances the cursor. -/
theorem C3_amended :
    (∀ (dz : Decomp) (data : List Nat) (offsets : List (String × Nat)) (pos : Nat)
        (e : String) (p : Nat), read_object_header data pos = (.error e, p) →
        recordStep dz data offsets pos = (.failed, p + 1)) ∧
    (∀ (dz : Decomp) (data : List Nat) (offsets : List (String × Nat)) (pos : Nat),
        pos < data.length → pobjTypeOf (data.getD pos 0 >>> 4 &&& 7) = none →
        recordStep dz data offsets pos = (.failed, pos + 2)) ∧
    (∀ (dz : Decomp) (data : List Nat) (offsets : List (String × Nat)) (pos : Nat)
        (ty : PObjType) (size p : Nat) (e : String) (p2 : Nat),
        read_object_header data pos = (.ok (ty, size), p) →
        ty ≠ .ofsDelta → ty ≠ .refDelta →
        read_zlib_data dz data p size = (.error e, p2) →
        recordStep dz data offsets pos = (.failed, p2 + 1)) ∧
    (∀ (dz : Decomp) (data : List Nat) (offsets : List (String × Nat)) (pos : Nat)
        (ty : PObjType) (size p : Nat),
        read_object_header data pos = (.ok (ty, size), p) →
        ty ≠ .ofsDelta → ty ≠ .refDelta →
        p < data.length → dz (data.drop p) = .errOther →
        recordStep dz data offsets pos = (.failed, p + 2)) ∧
    (∀ (dz : Decomp) (data : List Nat) (offsets : List (String × Nat))
        (pos size p : Nat) (e : String) (p2 : Nat),
        read_object_header data pos = (.ok (.ofsDelta, size), p) →
        read_offset_delta data p = (.error e, p2) →
        recordStep dz data offsets pos = (.failed, p2 + 1)) ∧
    (∀ (dz : Decomp) (data : List Nat) (offsets : List (String × Nat))
        (pos size p off p2 : Nat) (e : String) (p3 : Nat),
        read_object_header data pos = (.ok (.ofsDelta, size), p) →
        read_offset_delta data p = (.ok off, p2) →
        skip_zlib_data dz data p2 = (.error e, p3) →
        recordStep dz data offsets pos = (.failed, p3 + 1)) ∧
    (∀ (dz : Decomp) (data : List Nat) (offsets : List (String × Nat))
        (pos size p : Nat),
        read_object_header data pos = (.ok (.refDelta, size), p) →
        data.length < p + 20 →
        recordStep dz data offsets pos = (.failed, data.length + 1)) ∧
    (∀ (dz : Decomp) (data : List Nat) (offsets : List (String × Nat))
        (pos size p : Nat) (e : String) (p3 : Nat),
        read_object_header data pos = (.ok (.refDelta, size), p) →
        p + 20 ≤ data.length →
        skip_zlib_data dz data (p + 20) = (.error e, p3) →
        recordStep dz data offsets pos = (.failed, p3 + 1)) ∧
    (∀ (dz : Decomp) (data : List Nat) (offsets : List (String × Nat)) (pos : Nat)
        (ty : PObjType) (size p : Nat) (payload : List Nat) (p2 : Nat),
        read_object_header data pos = (.ok (ty, size), p) →
        ty ≠ .ofsDelta → ty ≠ .refDelta →
        read_zlib_data dz data p size = (.ok payload, p2) →
        ∃ obj, recordStep dz data offsets pos = (.emitted obj, p2)) ∧
    (∀ (dz : Decomp) (data : List Nat) (offsets : List (String × Nat)) (pos q : Nat),
        recordStep dz data offsets pos = (.failed, q) → pos < q) :=
  ⟨recordStep_header_err, recordStep_unknown_type, recordStep_zlib_err,
   recordStep_decomp_hard_err, recordStep_ofs_err, recordStep_ofs_skip_err,
   recordStep_ref_trunc, recordStep_ref_skip_err, recordStep_zlib_ok_emits,
   recordStep_failed_lt⟩

/-- Witness for C3 (amended): every failure kind exercised at a
concrete record — truncated header, unknown type byte, decompression
failure of a commit record (both forms), truncated OFS_DELTA offset,
OFS_DELTA skip with an invalid zlib header, truncated REF_DELTA base
hash, REF_DELTA skip with an invalid zlib header — plus an emitted
commit after a successful decompression and the progress bound. -/
theorem C3_amended_witness :
    recordStep (fun _ => .errOther) ([] : List Nat) [] 0 = (.failed, 0 + 1) ∧
    recordStep (fun _ => .errOther) [0] [] 0 = (.failed, 0 + 2) ∧
    recordStep (fun _ => .errOther) [16, 99] [] 0 = (.failed, 2 + 1) ∧
    recordStep (fun _ => .errOther) [16, 99] [] 0 = (.failed, 1 + 2) ∧
    recordStep (fun _ => .errOther) [96] [] 0 = (.failed, 1 + 1) ∧
    recordStep (fun _ => .errOther) [96, 0, 0, 0] [] 0 = (.failed, 4 + 1) ∧
    recordStep (fun _ => .errOther) [112] [] 0 = (.failed, List.length [112] + 1) ∧
    recordStep (fun _ => .errOther) ([112] ++ List.replicate 20 0 ++ [0, 0]) [] 0 =
      (.failed, 23 + 1) ∧
    (∃ obj, recordStep (fun _ => .ok [] 1) [16, 120] [] 0 = (.emitted obj, 2)) ∧
    (0 : Nat) < 1 := by
  obtain ⟨h1, h2, h3, h4, h5, h6, h7, h8, h9, h10⟩ := C3_amended
  refine ⟨h1 _ _ _ 0 "Reached end of file while reading object header" 0 (by decide),
    h2 _ _ _ 0 (by decide) (by decide),
    h3 _ _ _ 0 .commit 0 1 "decompression error" 2 (by decide) (by decide) (by decide)
      (by decide),
    h4 _ _ _ 0 .commit 0 1 (by decide) (by decide) (by decide) (by decide) rfl,
    h5 _ _ _ 0 0 1 "Error reading first offset byte" 1 (by decide) (by decide),
    h6 _ _ _ 0 0 1 0 2 "Invalid zlib header" 4 (by decide) (by decide) (by decide),
    h7 _ _ _ 0 0 1 (by decide) (by decide),
    h8 _ _ _ 0 0 1 "Invalid zlib header" 23 (by decide) (by decide) (by decide),
    h9 _ _ _ 0 .commit 0 1 [] 2 (by decide) (by decide) (by decide) (by decide),
    h10 (fun _ => .errOther) [] [] 0 1 (by decide)⟩


theorem packLoop_emitted (dz : Decomp) (data : List Nat) (offsets : List (String × Nat))
    (num : Nat) : ∀ (fuel processed pos : Nat) (acc : List (Nat × RecordOutcome)),
    (∀ o ∈ emittedObjects acc, o.objectType ≠ ObjectType.unknown) →
    ∀ o ∈ emittedObjects (packLoop dz data offsets num fuel processed pos acc),
      o.objectType ≠ ObjectType.unknown := by
  intro fuel
  induction fuel with
  | zero =>
    intro processed pos acc hacc o ho
    simp only [packLoop] at ho
    exact hacc o ho
  | succ n ih =>
    intro processed pos acc hacc o ho
    simp only [packLoop] at ho
    split at ho
    · refine ih (processed + 1) _ _ ?_ o ho
      intro o2 ho2
      simp only [emittedObjects, List.filterMap_append, List.mem_append] at ho2
      rcases ho2 with ho2 | ho2
      · exact hacc o2 ho2
      · rcases hout : (recordStep dz data offsets pos).1 with obj3 | _ | _
        · simp only [emittedObjects, List.filterMap_cons, List.filterMap_nil, hout] at ho2
          simp only [List.mem_singleton] at ho2
          subst ho2
          exact recordStep_emitted dz data offsets pos o2 (recordStep dz data offsets pos).2
            (by rw [← hout])
        · simp only [emittedObjects, List.filterMap_cons, List.filterMap_nil, hout] at ho2
          exact absurd ho2 (List.not_mem_nil _)
        · simp only [emittedObjects, List.filterMap_cons, List.filterMap_nil, hout] at ho2
          exact absurd ho2 (List.not_mem_nil _)
    · exact hacc o ho

theorem packTrace_emitted (dz : Decomp) (data : List Nat) (offsets : List (String × Nat))
    (num : Nat) (trace : List (Nat × RecordOutcome))
    (h : packTrace dz data offsets = .ok (num, trace)) :
    ∀ o ∈ emittedObjects trace, o.objectType ≠ ObjectType.unknown := by
  simp only [packTrace] at h
  split at h
  · exact absurd h (by simp)
  split at h
  · exact absurd h (by simp)
  split at h
  · exact absurd h (by simp)
  split at h
  · exact absurd h (by simp)
  split at h
  · exact absurd h (by simp)
  rw [Except.ok.injEq, Prod.mk.injEq] at h
  rw [← h.2]
  refine packLoop_emitted dz data offsets _ _ 0 12 [] ?_
  intro o ho
  simp [emittedObjects] at ho

/-- C4 (amended): every object emitted by the pack reader — under a
placeholder hash or an indexed one — has the base type decoded from its
record header, never `unknown`; and the commit counter filters on the
object type alone, so a placeholder-hashed commit is counted. -/
theorem C4_amended :
    (∀ (dz : Decomp) (data : List Nat) (offsets : List (String × Nat))
        (objs : List GitObject), parse_pack_file dz data offsets = .ok objs →
        ∀ obj ∈ objs, obj.objectType ≠ ObjectType.unknown) ∧
    (∀ o : GitObject, count_all_commits [o] =
        if o.objectType = ObjectType.commit then 1 else 0) := by
  constructor
  · intro dz data offsets objs h obj hobj
    unfold parse_pack_file at h
    split at h
    · exact absurd h (by simp)
    · rename_i nt heq
      rw [Except.ok.injEq] at h
      subst h
      exact packTrace_emitted dz data offsets nt.1 nt.2 (by rw [← heq]) obj hobj
  · intro o
    by_cases hc : o.objectType = ObjectType.commit
    · have hb : (o.objectType == ObjectType.commit) = true := by simp [hc]
      simp [count_all_commits, dedupByHash, List.filter, hb, hc]
    · have hb : (o.objectType == ObjectType.commit) = false := by simp [hc]
      simp [count_all_commits, dedupByHash, List.filter, hb, hc]

/-- Witness for C4 (amended) at the concrete single-commit pack. -/
theorem C4_amended_witness :
    (⟨"unknown_12", ObjectType.commit, 0, []⟩ : GitObject).objectType ≠ ObjectType.unknown ∧
    count_all_commits [⟨"unknown_12", ObjectType.commit, 0, []⟩] =
      (if (⟨"unknown_12", ObjectType.commit, 0, []⟩ : GitObject).objectType = ObjectType.commit
       then 1 else 0) :=
  ⟨C4_amended.1 (fun s => if s = [120, 156, 3, 0, 0, 0, 0, 1] then .ok [] 8 else .errOther)
      [80, 65, 67, 75, 0, 0, 0, 2, 0, 0, 0, 1, 16, 120, 156, 3, 0, 0, 0, 0, 1] []
      [⟨"unknown_12", ObjectType.commit, 0, []⟩] (by decide)
      ⟨"unknown_12", ObjectType.commit, 0, []⟩ (by simp),
   C4_amended.2 ⟨"unknown_12", ObjectType.commit, 0, []⟩⟩


/-! ### C8: the source SHA-1 against the FIPS 180-4 specification -/

theorem padZerosAux_eq : ∀ (fuel : Nat) (l : List Nat),
    (120 - l.length % 64) % 64 < fuel →
    padZerosAux fuel l = l ++ List.replicate ((120 - l.length % 64) % 64) 0 := by
  intro fuel
  induction fuel with
  | zero => intro l h; omega
  | succ f ih =>
    intro l h
    simp only [padZerosAux]
    split
    · rename_i h56
      have : (120 - l.length % 64) % 64 = 0 := by omega
      rw [this]
      simp
    · rename_i h56
      have hlt : (120 - (l ++ [0]).length % 64) % 64 < f := by
        simp only [List.length_append, List.length_cons, List.length_nil]
        omega
      rw [ih (l ++ [0]) hlt]
      have hcount : (120 - (l ++ [0]).length % 64) % 64 + 1 = (120 - l.length % 64) % 64 := by
        simp only [List.length_append, List.length_cons, List.length_nil]
        omega
      calc l ++ [0] ++ List.replicate ((120 - (l ++ [0]).length % 64) % 64) 0
          = l ++ (0 :: List.replicate ((120 - (l ++ [0]).length % 64) % 64) 0) := by
            rw [List.append_assoc]
            rfl
        _ = l ++ List.replicate ((120 - (l ++ [0]).length % 64) % 64 + 1) 0 := by
            rw [List.replicate_succ]
        _ = l ++ List.replicate ((120 - l.length % 64) % 64) 0 := by rw [hcount]

theorem sha1Pad_eq_fipsPad (data : List Nat) : sha1Pad data = fipsPad data := by
  unfold sha1Pad padZeros fipsPad fipsZeroCount
  rw [padZerosAux_eq 64 (data ++ [128]) (by omega)]
  simp only [List.length_append, List.length_cons, List.length_nil, List.append_assoc]

theorem extendW_length : ∀ (k : Nat) (w : List Nat), (extendW k w).length = w.length + k := by
  intro k
  induction k with
  | zero => intro w; rfl
  | succ n ih =>
    intro w
    simp only [extendW]
    rw [ih]
    simp only [List.length_append, List.length_cons, List.length_nil]
    omega

theorem w16_length (chunk : List Nat) : (w16 chunk).length = 16 := by simp [w16]

theorem w16_getD (chunk : List Nat) (t : Nat) (ht : t < 16) :
    (w16 chunk).getD t 0 = specW chunk t := by
  rw [specW, if_pos ht]
  unfold w16
  rw [List.getD_eq_getElem?_getD, List.getElem?_map, List.getElem?_range ht]
  rfl

theorem extendW_getD : ∀ (k : Nat) (w : List Nat) (chunk : List Nat), 16 ≤ w.length →
    (∀ t, t < w.length → w.getD t 0 = specW chunk t) →
    ∀ t, t < w.length + k → (extendW k w).getD t 0 = specW chunk t := by
  intro k
  induction k with
  | zero =>
    intro w chunk _ hw t ht
    simp only [extendW]
    exact hw t (by omega)
  | succ n ih =>
    intro w chunk h16 hw t ht
    simp only [extendW]
    have hlen : (w ++ [rotl32 (w.getD (w.length - 3) 0 ^^^ w.getD (w.length - 8) 0 ^^^
        w.getD (w.length - 14) 0 ^^^ w.getD (w.length - 16) 0) 1]).length = w.length + 1 := by
      simp
    refine ih _ chunk (by omega) ?_ t (by omega)
    intro u hu
    rw [hlen] at hu
    by_cases hcase : u < w.length
    · rw [List.getD_append _ _ _ _ hcase]
      exact hw u hcase
    · have hu2 : u = w.length := by omega
      subst hu2
      rw [List.getD_eq_getElem?_getD, List.getElem?_append_right (by omega)]
      simp only [Nat.sub_self, List.getElem?_cons_zero, Option.getD_some]
      have e3 : w.getD (w.length - 3) 0 = specW chunk (w.length - 3) := hw _ (by omega)
      have e8 : w.getD (w.length - 8) 0 = specW chunk (w.length - 8) := hw _ (by omega)
      have e14 : w.getD (w.length - 14) 0 = specW chunk (w.length - 14) := hw _ (by omega)
      have e16 : w.getD (w.length - 16) 0 = specW chunk (w.length - 16) := hw _ (by omega)
      rw [e3, e8, e14, e16]
      conv_rhs => rw [specW]
      rw [if_neg (by omega)]

theorem buildW_getD (chunk : List Nat) (t : Nat) (ht : t < 80) :
    (buildW chunk).getD t 0 = specW chunk t := by
  unfold buildW
  refine extendW_getD 64 (w16 chunk) chunk (by rw [w16_length]) ?_ t
    (by rw [w16_length]; omega)
  intro u hu
  rw [w16_length] at hu
  exact w16_getD chunk u hu

theorem ch_or_eq_xor (b c d : Nat) :
    (b &&& c) ||| (not32 b &&& d) = (b &&& c) ^^^ (not32 b &&& d) := by
  apply Nat.eq_of_testBit_eq
  intro i
  have hmask : Nat.testBit 4294967295 i = decide (i < 32) := by
    have h32 : (4294967295 : Nat) = 2 ^ 32 - 1 := by norm_num
    rw [h32, Nat.testBit_two_pow_sub_one]
  have hmod : Nat.testBit (b % U32) i = (decide (i < 32) && Nat.testBit b i) := by
    have h32 : U32 = 2 ^ 32 := by unfold U32; norm_num
    rw [h32, Nat.testBit_mod_two_pow]
  simp only [Nat.testBit_lor, Nat.testBit_xor, Nat.testBit_land, not32, hmask, hmod]
  cases Nat.testBit b i <;> cases Nat.testBit c i <;> cases Nat.testBit d i <;>
    cases hdec : decide (i < 32) <;> rfl

theorem maj_or_eq_xor (b c d : Nat) :
    (b &&& c) ||| (b &&& d) ||| (c &&& d) =
      (b &&& c) ^^^ (b &&& d) ^^^ (c &&& d) := by
  apply Nat.eq_of_testBit_eq
  intro i
  simp only [Nat.testBit_lor, Nat.testBit_xor, Nat.testBit_land]
  cases Nat.testBit b i <;> cases Nat.testBit c i <;> cases Nat.testBit d i <;> rfl

theorem fk_eq (t b c d : Nat) : sha1_fk t b c d = (fipsF t b c d, fipsK t) := by
  by_cases h1 : t ≤ 19
  · rw [sha1_fk, if_pos h1, fipsF, if_pos (by omega), fipsK, if_pos (by omega)]
    rw [ch_or_eq_xor]
    rfl
  · by_cases h2 : t ≤ 39
    · rw [sha1_fk, if_neg h1, if_pos h2, fipsF, if_neg (by omega), if_pos (by omega),
        fipsK, if_neg (by omega), if_pos (by omega)]
      rfl
    · by_cases h3 : t ≤ 59
      · rw [sha1_fk, if_neg h1, if_neg h2, if_pos h3, fipsF, if_neg (by omega),
          if_neg (by omega), if_pos (by omega), fipsK, if_neg (by omega),
          if_neg (by omega), if_pos (by omega)]
        rw [maj_or_eq_xor]
        rfl
      · rw [sha1_fk, if_neg h1, if_neg h2, if_neg h3, fipsF, if_neg (by omega),
          if_neg (by omega), if_neg (by omega), fipsK, if_neg (by omega),
          if_neg (by omega), if_neg (by omega)]
        rfl

theorem roundStep_eq_fipsStep (chunk : List Nat) (t : Nat) (ht : t < 80) (s : Sha1State) :
    roundStep (buildW chunk) t s = fipsStep chunk t s := by
  rcases s with ⟨a, b, c, d, e⟩
  simp only [roundStep, fipsStep, fk_eq, buildW_getD chunk t ht]

theorem rounds_eq : ∀ (n : Nat), n ≤ 80 → ∀ (chunk : List Nat) (h : Sha1State),
    (List.range n).foldl (fun s i => roundStep (buildW chunk) i s) h =
      fipsRounds chunk n h := by
  intro n
  induction n with
  | zero => intro _ chunk h; rfl
  | succ n ih =>
    intro hn chunk h
    rw [List.range_succ, List.foldl_append]
    simp only [List.foldl_cons, List.foldl_nil]
    rw [ih (by omega) chunk h, roundStep_eq_fipsStep chunk n (by omega)]
    rfl

theorem processChunk_eq_fipsBlock (h : Sha1State) (chunk : List Nat) :
    processChunk h chunk = fipsBlock h chunk := by
  unfold processChunk fipsBlock
  rw [rounds_eq 80 le_rfl chunk h]

theorem toHex8Chars_eq (w : Nat) :
    toHex8Chars w =
      (toBE32 w).flatMap (fun x => [hexDigitChar (x / 16 % 16), hexDigitChar (x % 16)]) := by
  have d1 : w / 268435456 % 16 = w / 16777216 % 256 / 16 % 16 := by omega
  have d2 : w / 16777216 % 16 = w / 16777216 % 256 % 16 := by omega
  have d3 : w / 1048576 % 16 = w / 65536 % 256 / 16 % 16 := by omega
  have d4 : w / 65536 % 16 = w / 65536 % 256 % 16 := by omega
  have d5 : w / 4096 % 16 = w / 256 % 256 / 16 % 16 := by omega
  have d6 : w / 256 % 16 = w / 256 % 256 % 16 := by omega
  have d7 : w / 16 % 16 = w % 256 / 16 % 16 := by omega
  have d8 : w % 16 = w % 256 % 16 := by omega
  simp only [toBE32, List.flatMap_cons, List.flatMap_nil, List.append_nil,
    List.cons_append, List.nil_append, toHex8Chars]
  rw [d1, d2, d3, d4, d5, d6, d7, d8]

theorem sha1_string_length (cs : List Char) : (String.mk cs).length = cs.length := rfl

theorem toHex8Chars_lower_hex (w : Nat) : ∀ c ∈ toHex8Chars w,
    (48 ≤ c.toNat ∧ c.toNat ≤ 57) ∨ (97 ≤ c.toNat ∧ c.toNat ≤ 102) := by
  intro c hc
  simp only [toHex8Chars, List.mem_cons, List.not_mem_nil, or_false] at hc
  have hall : ∀ m, m < 16 →
      (48 ≤ (hexDigitChar m).toNat ∧ (hexDigitChar m).toNat ≤ 57) ∨
      (97 ≤ (hexDigitChar m).toNat ∧ (hexDigitChar m).toNat ≤ 102) := by decide
  rcases hc with rfl | rfl | rfl | rfl | rfl | rfl | rfl | rfl <;>
    exact hall _ (Nat.mod_lt _ (by omega))

/-- C8: `sha1_hash` computes, for every byte sequence, the 40-character
lowercase hexadecimal encoding of the FIPS 180-4 SHA-1 digest: it
agrees everywhere with the spec-side `fipsDigest`/`specHexEncode`
definition, its output is always 40 characters drawn from `0-9` and
`a-f`, and on the empty input it yields the standard empty-message
digest. -/
theorem C8_sha1_is_fips :
    (∀ b : List Nat, sha1_hash b = specHexEncode (fipsDigest b)) ∧
    (∀ b : List Nat, (sha1_hash b).length = 40 ∧ ∀ c ∈ (sha1_hash b).data,
      (48 ≤ c.toNat ∧ c.toNat ≤ 57) ∨ (97 ≤ c.toNat ∧ c.toNat ≤ 102)) ∧
    sha1_hash [] = "da39a3ee5e6b4b0d3255bfef95601890afd80709" := by
  have hwords : ∀ b : List Nat, sha1Words b =
      (chunks64 (fipsPad b)).foldl fipsBlock
        (1732584193, 4023233417, 2562383102, 271733878, 3285377520) := by
    intro b
    unfold sha1Words
    rw [sha1Pad_eq_fipsPad]
    rw [show processChunk = fipsBlock from
      funext (fun h => funext (fun c => processChunk_eq_fipsBlock h c))]
  refine ⟨?_, ?_, by decide⟩
  · intro b
    unfold sha1_hash fipsDigest specHexEncode
    rw [← hwords b]
    rcases hw : sha1Words b with ⟨h0, h1, h2, h3, h4⟩
    simp only [List.flatMap_append, toHex8Chars_eq]
  · intro b
    unfold sha1_hash
    rcases hw : sha1Words b with ⟨h0, h1, h2, h3, h4⟩
    constructor
    · rw [sha1_string_length]
      simp [toHex8Chars]
    · intro c hc
      simp only [String.data] at hc
      simp only [List.mem_append] at hc
      rcases hc with ((((hc | hc) | hc) | hc) | hc) <;>
        exact toHex8Chars_lower_hex _ c hc

end Rakke
